import Mathlib

/-!
Shallow embedding of the gen4 horizon planner
(`go/vt/vtgate/planbuilder/horizon_planning.go`) and proofs of its
specified properties.

The Go file is a single-threaded tree rewriter.  In-place mutation of the
plan tree, of the `horizonPlanning` record and of the semantic table is
modelled by explicit state passing; fallible code returns `Except Err`.
Collaborator packages (`sqlparser`, `semantics`, `engine`, `abstract`,
`evalengine`, the vschema) are modelled as data or as function fields of
the semantic table / planning context, following the spec's description of
their interfaces.
-/

namespace VitessHorizon

/-! ## Errors (vterrors) -/

/-- Error codes used by the planner (`vtrpcpb.Code`). -/
inductive ErrCode where
  | unimplemented
  | internal
  | invalidArgument
  deriving DecidableEq, Repr

/-- A vterrors-style error: a code plus a message. -/
structure Err where
  code : ErrCode
  msg : String
  deriving DecidableEq, Repr

/-! ## Table sets (semantics.TableSet) -/

/-- A set of tables, as a bitmask (semantics.TableSet). -/
abbrev TableSet := Nat

/-- TableSet.IsSolvedBy: every table of `a` is covered by `b`. -/
def TableSet.isSolvedBy (a b : TableSet) : Bool := a ||| b == b

/-! ## SQL AST (sqlparser)

Only the constructors the horizon planner inspects are modelled.
`ColName` carries the keyspace qualifier, the table qualifier and the
column identifier; identifiers compare case-insensitively (ColIdent). -/

/-- Lowercase a string (standing in for strings.ToLower; spelled out over
the character list so that the kernel can evaluate it). -/
def lowerString (s : String) : String := ⟨s.data.map Char.toLower⟩

/-- Case-insensitive identifier equality (sqlparser.ColIdent.Equal). -/
def ciEqual (a b : String) : Bool := lowerString a == lowerString b

mutual
/-- sqlparser.Expr, restricted to the shapes the horizon planner inspects. -/
inductive Expr where
  | colName (ks tbl : Option String) (name : String)
  | nullLit
  | intLit (n : Nat)
  | binary (op : String) (l r : Expr)
  | unary (op : String) (arg : Expr)
  | funcExpr (name : String) (isDistinct : Bool) (args : ArgList)

/-- The argument list of a function call (sqlparser.SelectExprs). -/
inductive ArgList where
  | nil
  | cons (head : SelectExprItem) (tail : ArgList)

/-- sqlparser.SelectExpr: an aliased expression or a star expression. -/
inductive SelectExprItem where
  | aliased (e : Expr) (a : String)
  | star
end

deriving instance DecidableEq for Expr, ArgList, SelectExprItem
deriving instance Repr for Expr, ArgList, SelectExprItem

/-- sqlparser.AliasedExpr. An empty `alias` models an absent `As`. -/
structure AliasedExpr where
  expr : Expr
  asName : String
  deriving DecidableEq, Repr

/-- View a `SelectExprItem` as an `AliasedExpr` (the Go type assertion). -/
def SelectExprItem.asAliased : SelectExprItem → Option AliasedExpr
  | .aliased e a => some ⟨e, a⟩
  | .star => none

/-- Embed an `AliasedExpr` back into a select list. -/
def AliasedExpr.toItem (ae : AliasedExpr) : SelectExprItem :=
  .aliased ae.expr ae.asName

/-- sqlparser.IsColName. -/
def Expr.isColName : Expr → Bool
  | .colName .. => true
  | _ => false

/-- sqlparser.IsNull. -/
def Expr.isNull : Expr → Bool
  | .nullLit => true
  | _ => false

/-- sqlparser.NewColName. -/
def newColName (s : String) : Expr := .colName none none s

/-- sqlparser.RemoveKeyspaceFromColName: strip the keyspace qualifier of a
column reference; other expressions are returned unchanged. -/
def removeKeyspaceFromColName : Expr → Expr
  | .colName _ tbl name => .colName none tbl name
  | e => e

mutual
/-- Structural expression equality with case-insensitive identifiers
(sqlparser.EqualsExpr). -/
def exprEqual : Expr → Expr → Bool
  | .colName ks1 t1 n1, .colName ks2 t2 n2 => ks1 == ks2 && t1 == t2 && ciEqual n1 n2
  | .nullLit, .nullLit => true
  | .intLit a, .intLit b => a == b
  | .binary o1 l1 r1, .binary o2 l2 r2 => o1 == o2 && exprEqual l1 l2 && exprEqual r1 r2
  | .unary o1 a1, .unary o2 a2 => o1 == o2 && exprEqual a1 a2
  | .funcExpr n1 d1 a1, .funcExpr n2 d2 a2 => ciEqual n1 n2 && d1 == d2 && argsEqual a1 a2
  | _, _ => false

def argsEqual : ArgList → ArgList → Bool
  | .nil, .nil => true
  | .cons h1 t1, .cons h2 t2 => itemEqual h1 h2 && argsEqual t1 t2
  | _, _ => false

def itemEqual : SelectExprItem → SelectExprItem → Bool
  | .aliased e1 a1, .aliased e2 a2 => exprEqual e1 e2 && ciEqual a1 a2
  | .star, .star => true
  | _, _ => false
end

mutual
/-- A printer standing in for sqlparser.String on expressions. -/
def exprString : Expr → String
  | .colName _ (some t) name => t ++ "." ++ name
  | .colName _ none name => name
  | .nullLit => "null"
  | .intLit n => toString n
  | .binary op l r => exprString l ++ " " ++ op ++ " " ++ exprString r
  | .unary op a => op ++ exprString a
  | .funcExpr name d args =>
      name ++ "(" ++ (if d then "distinct " else "") ++ argsString args ++ ")"

def argsString : ArgList → String
  | .nil => ""
  | .cons h .nil => itemString h
  | .cons h t => itemString h ++ ", " ++ argsString t

def itemString : SelectExprItem → String
  | .aliased e a => if a == "" then exprString e else exprString e ++ " as " ++ a
  | .star => "*"
end

/-- sqlparser.String on an aliased expression. -/
def aliasedExprString (ae : AliasedExpr) : String := itemString ae.toItem

/-- The aggregation functions sqlparser knows (sqlparser.Aggregates).
Modelled from the collaborator package. -/
def aggregateFunctionNames : List String :=
  ["avg", "bit_and", "bit_or", "bit_xor", "count", "group_concat", "max",
   "min", "std", "stddev_pop", "stddev_samp", "stddev", "sum", "var_pop",
   "var_samp", "variance"]

/-- sqlparser.IsAggregation: the expression is itself an aggregate call. -/
def Expr.isAggregation : Expr → Bool
  | .funcExpr name _ _ => aggregateFunctionNames.contains (lowerString name)
  | _ => false

mutual
/-- sqlparser.ContainsAggregation: some subexpression is an aggregate call. -/
def containsAggregation : Expr → Bool
  | .colName .. => false
  | .nullLit => false
  | .intLit _ => false
  | .binary _ l r => containsAggregation l || containsAggregation r
  | .unary _ a => containsAggregation a
  | .funcExpr name d args =>
      Expr.isAggregation (.funcExpr name d args) || argsContainAggregation args

def argsContainAggregation : ArgList → Bool
  | .nil => false
  | .cons h t => itemContainsAggregation h || argsContainAggregation t

def itemContainsAggregation : SelectExprItem → Bool
  | .aliased e _ => containsAggregation e
  | .star => false
end

/-! ## Select statements -/

/-- sqlparser.Order: one ORDER BY element. `desc` models `Direction`. -/
structure Order where
  expr : Expr
  desc : Bool
  deriving DecidableEq, Repr

/-- The parts of a sqlparser.Select the horizon planner reads and writes. -/
structure SelectCore where
  selectExprs : List SelectExprItem
  groupBy : List Expr
  orderBy : List Order
  having : Option Expr
  isDistinct : Bool
  limit : Option Nat
  deriving DecidableEq, Repr

/-- sqlparser.SelectStatement: a SELECT or a UNION. -/
inductive SelectStatement where
  | sel (s : SelectCore)
  | union (l r : SelectStatement) (orderBy : List Order) (isDistinct : Bool)
  deriving DecidableEq, Repr

/-- sqlparser.GetFirstSelect. -/
def getFirstSelect : SelectStatement → SelectCore
  | .sel s => s
  | .union l _ _ _ => getFirstSelect l

/-- Rewrite the first SELECT of a statement in place. -/
def updateFirstSelect (f : SelectCore → SelectCore) : SelectStatement → SelectStatement
  | .sel s => .sel (f s)
  | .union l r ob d => .union (updateFirstSelect f l) r ob d

/-- SelectStatement.GetColumnCount: width of the first select's projection. -/
def SelectStatement.getColumnCount (ss : SelectStatement) : Nat :=
  (getFirstSelect ss).selectExprs.length

/-- Select.GetColumnCount on a bare SELECT. -/
def SelectCore.getColumnCount (s : SelectCore) : Nat := s.selectExprs.length

/-- SelectStatement.AddOrder. -/
def SelectStatement.addOrder (o : Order) : SelectStatement → SelectStatement
  | .sel s => .sel { s with orderBy := s.orderBy ++ [o] }
  | .union l r ob d => .union l r (ob ++ [o]) d

/-- SelectStatement.MakeDistinct. -/
def SelectStatement.makeDistinct : SelectStatement → SelectStatement
  | .sel s => .sel { s with isDistinct := true }
  | .union l r ob _ => .union l r ob true

/-- Select.AddHaving: AND the new predicate onto the HAVING clause. -/
def SelectCore.addHaving (s : SelectCore) (e : Expr) : SelectCore :=
  match s.having with
  | none => { s with having := some e }
  | some h => { s with having := some (.binary "and" h e) }

/-! ## Engine payloads (engine package) -/

/-- engine.AggregateOpcode. -/
inductive AggregateOpcode where
  | count
  | sum
  | min
  | max
  | countDistinct
  | sumDistinct
  deriving DecidableEq, Repr

/-- engine.SupportedAggregates, keyed by lowered function name.
Modelled from the spec's supported-aggregates table. -/
def supportedAggregates (name : String) : Option AggregateOpcode :=
  if name == "count" then some .count
  else if name == "sum" then some .sum
  else if name == "min" then some .min
  else if name == "max" then some .max
  else none

/-- engine.JoinOpcode. -/
inductive JoinOpcode where
  | normalJoin
  | leftJoin
  deriving DecidableEq, Repr

/-- engine.OrderByParams. -/
structure OrderByParams where
  col : Nat
  weightStringCol : Int
  desc : Bool
  starColFixedIndex : Nat
  collationID : Nat
  deriving DecidableEq, Repr

/-- engine.AggregateParams. -/
structure AggregateParams where
  opcode : AggregateOpcode
  col : Nat
  aliasName : String
  expr : Expr
  wAssigned : Bool
  wCol : Int
  deriving DecidableEq, Repr

/-- engine.GroupByParams. -/
structure GroupByParams where
  keyCol : Nat
  weightStringCol : Int
  expr : Option Expr
  collationID : Nat
  deriving DecidableEq, Repr

/-- engine.OrderedAggregate (the `eaggr` payload, including its truncation
handle). -/
structure EOrderedAggregate where
  preProcess : Bool
  aggregates : List AggregateParams
  groupByKeys : List GroupByParams
  truncateColumnCount : Nat
  deriving DecidableEq, Repr

/-- A fresh engine.OrderedAggregate. -/
def emptyEAggr : EOrderedAggregate :=
  { preProcess := false, aggregates := [], groupByKeys := [], truncateColumnCount := 0 }

/-- The engine.Route payload, with its truncation handle. -/
structure ERoute where
  orderBy : List OrderByParams
  truncateColumnCount : Nat
  deriving DecidableEq, Repr

/-- engine.MemorySort, with its truncation handle. -/
structure EMemorySort where
  orderBy : List OrderByParams
  truncateColumnCount : Nat
  deriving DecidableEq, Repr

/-! ## The semantic table and the planning context (collaborators)

The semantic table is the read-mostly collaborator described in the spec;
its queries are modelled as function fields.  `tableInfo`, `convertErr` and
`breakExpression` stand in for `semantics.TableInfoForExpr`,
`evalengine.Convert` and `breakExpressionInLHSandRHS`, which live outside
this source file. -/

/-- Outcome of semantics.TableInfoForExpr: a hard error, the ignorable
ErrMultipleTables, a non-derived table, or a derived table. -/
inductive TableInfoRes where
  | failure (e : Err)
  | multipleTables
  | notDerived
  | derived
  deriving Repr

/-- semantics.SemTable. -/
structure SemTable where
  recursiveDeps : Expr → TableSet
  /-- semantics.TypeFor composed with sqltypes.IsNumber: `none` when the type
  is unknown, otherwise whether it is numeric. -/
  typeIsNumeric : Expr → Option Bool
  collationFor : Expr → Nat
  shardedError : Option Err
  /-- Modelled from the spec: the error result of `evalengine.Convert`
  (`none` when the expression converts). -/
  convertErr : Expr → Option Err
  tableInfo : Expr → TableInfoRes
  /-- semantics.RewriteDerivedExpression. -/
  rewriteDerived : Expr → Except Err Expr
  /-- Modelled from the spec: `breakExpressionInLHSandRHS` splits an
  expression that spans a join into bind-variable names, the LHS columns
  to push, and the rewritten RHS expression. -/
  breakExpression : Expr → TableSet → Except Err (List String × List Expr × Expr)

/-- semantics.CopyDependencies: record that `to` has the dependencies of
`from`. -/
def SemTable.copyDependencies (st : SemTable) (src dst : Expr) : SemTable :=
  { st with recursiveDeps := fun e => if e = dst then st.recursiveDeps src else st.recursiveDeps e }

/-! ## The query projection (abstract package) -/

/-- abstract.SelectExpr: one normalized select item. -/
structure QPSelectExpr where
  col : SelectExprItem
  aggr : Bool
  deriving DecidableEq, Repr

/-- abstract.SelectExpr.GetAliasedExpr. -/
def QPSelectExpr.getAliasedExpr (e : QPSelectExpr) : Except Err AliasedExpr :=
  match e.col.asAliased with
  | some ae => .ok ae
  | none => .error ⟨.internal, "expected an aliased expression"⟩

/-- abstract.SelectExpr.GetExpr. -/
def QPSelectExpr.getExpr (e : QPSelectExpr) : Except Err Expr :=
  match e.col.asAliased with
  | some ae => .ok ae.expr
  | none => .error ⟨.internal, "expected an aliased expression"⟩

/-- abstract.GroupBy. -/
structure GroupBy where
  inner : Expr
  weightStrExpr : Option Expr
  distinctAggrIndex : Nat
  deriving DecidableEq, Repr

/-- abstract.OrderBy. -/
structure OrderBy where
  inner : Order
  weightStrExpr : Option Expr
  deriving DecidableEq, Repr

/-- abstract.QueryProjection. -/
structure QueryProjection where
  selectExprs : List QPSelectExpr
  groupByExprs : List GroupBy
  orderExprs : List OrderBy
  hasAggr : Bool
  hasStar : Bool
  canPushDownSorting : Bool
  projectionError : Option Err
  /-- abstract.QueryProjection.NeedsAggregation. -/
  needsAggregationFlag : Bool
  /-- abstract.QueryProjection.NeedsDistinct. -/
  needsDistinctFlag : Bool
  deriving Repr

/-- The zero query projection (only used as the default of the optional
`qp` field before `planHorizon` has installed the real one). -/
def emptyQP : QueryProjection :=
  { selectExprs := [], groupByExprs := [], orderExprs := [], hasAggr := false,
    hasStar := false, canPushDownSorting := false, projectionError := none,
    needsAggregationFlag := false, needsDistinctFlag := false }

/-! ## Logical plans -/

/-- The routeGen4 node: an embedded SQL statement plus the engine payload.
`singleShard` models `routeGen4.isSingleShard()` and `tables` models
`ContainsTables()`, both computed outside this source file from the route's
engine opcode and table set. -/
structure Route where
  select : SelectStatement
  eroute : ERoute
  singleShard : Bool
  tables : TableSet
  deriving DecidableEq, Repr

mutual
/-- The logical-plan tree (the closed set of operator kinds dispatched on
by the horizon planner).  `concatenateGen4` keeps its first source apart so
that `sources[0]` always exists; the remaining sources form a `PlanList`. -/
inductive LogicalPlan where
  | routeGen4 (r : Route)
  | joinGen4 (lhs rhs : LogicalPlan) (opcode : JoinOpcode) (cols : List Int)
      (vars : List (String × Nat))
  | hashJoin (lhs rhs : LogicalPlan) (opcode : JoinOpcode) (cols : List Int)
  | semiJoin (lhs rhs : LogicalPlan) (cols : List Int)
  | orderedAggregate (input : LogicalPlan) (eaggr : EOrderedAggregate)
  | memorySort (input : LogicalPlan) (ems : EMemorySort)
  | simpleProjection (input : LogicalPlan) (cols : List Nat)
  | vindexFunc (cols : List AliasedExpr)
  | pulloutSubquery (subquery underlying : LogicalPlan)
  | filterPlan (input : LogicalPlan) (pred : Expr)
  | limitPlan (input : LogicalPlan)
  | distinctPlan (input : LogicalPlan)
  | concatenateGen4 (first : LogicalPlan) (rest : PlanList)

/-- The trailing sources of a concatenate node. -/
inductive PlanList where
  | nil
  | cons (head : LogicalPlan) (tail : PlanList)
end

deriving instance DecidableEq for LogicalPlan, PlanList
deriving instance Repr for LogicalPlan, PlanList

/-- The Go type name of a plan node, as printed by `%T` in error messages. -/
def planTypeName : LogicalPlan → String
  | .routeGen4 _ => "*planbuilder.routeGen4"
  | .joinGen4 .. => "*planbuilder.joinGen4"
  | .hashJoin .. => "*planbuilder.hashJoin"
  | .semiJoin .. => "*planbuilder.semiJoin"
  | .orderedAggregate .. => "*planbuilder.orderedAggregate"
  | .memorySort .. => "*planbuilder.memorySort"
  | .simpleProjection .. => "*planbuilder.simpleProjection"
  | .vindexFunc _ => "*planbuilder.vindexFunc"
  | .pulloutSubquery .. => "*planbuilder.pulloutSubquery"
  | .filterPlan .. => "*planbuilder.filter"
  | .limitPlan _ => "*planbuilder.limit"
  | .distinctPlan _ => "*planbuilder.distinct"
  | .concatenateGen4 .. => "*planbuilder.concatenateGen4"

mutual
/-- logicalPlan.ContainsTables: the union of the tables under a node. -/
def containsTables : LogicalPlan → TableSet
  | .routeGen4 r => r.tables
  | .joinGen4 l r _ _ _ => containsTables l ||| containsTables r
  | .hashJoin l r _ _ => containsTables l ||| containsTables r
  | .semiJoin l r _ => containsTables l ||| containsTables r
  | .orderedAggregate i _ => containsTables i
  | .memorySort i _ => containsTables i
  | .simpleProjection i _ => containsTables i
  | .vindexFunc _ => 0
  | .pulloutSubquery sq u => containsTables sq ||| containsTables u
  | .filterPlan i _ => containsTables i
  | .limitPlan i => containsTables i
  | .distinctPlan i => containsTables i
  | .concatenateGen4 first rest => containsTablesList (containsTables first) rest

def containsTablesList (acc : TableSet) : PlanList → TableSet
  | .nil => acc
  | .cons p ps => containsTablesList (acc ||| containsTables p) ps
end

/-- isJoin. -/
def isJoin : LogicalPlan → Bool
  | .joinGen4 .. => true
  | .hashJoin .. => true
  | _ => false

/-- The width of a node's output column frame: the number of columns its
output rows carry (before truncation).  Offsets returned by the projection
pusher address this frame. -/
def width : LogicalPlan → Nat
  | .routeGen4 r => (getFirstSelect r.select).selectExprs.length
  | .joinGen4 _ _ _ cols _ => cols.length
  | .hashJoin _ _ _ cols => cols.length
  | .semiJoin _ _ cols => cols.length
  | .orderedAggregate i _ => width i
  | .memorySort i _ => width i
  | .simpleProjection _ cols => cols.length
  | .vindexFunc cols => cols.length
  | .pulloutSubquery _ u => width u
  | .filterPlan i _ => width i
  | .limitPlan i => width i
  | .distinctPlan i => width i
  | .concatenateGen4 first _ => width first

mutual
/-- The operator skeleton of a plan, forgetting all payloads.  Projection
push-down rewrites payloads but never changes the skeleton. -/
inductive PlanShape where
  | leaf
  | one (s : PlanShape)
  | two (l r : PlanShape)
  | many (first : PlanShape) (rest : ShapeList)

inductive ShapeList where
  | nil
  | cons (head : PlanShape) (tail : ShapeList)
end

deriving instance DecidableEq for PlanShape, ShapeList
deriving instance Repr for PlanShape, ShapeList

mutual
def planShape : LogicalPlan → PlanShape
  | .routeGen4 _ => .leaf
  | .joinGen4 l r _ _ _ => .two (planShape l) (planShape r)
  | .hashJoin l r _ _ => .two (planShape l) (planShape r)
  | .semiJoin l r _ => .two (planShape l) (planShape r)
  | .orderedAggregate i _ => .one (planShape i)
  | .memorySort i _ => .one (planShape i)
  | .simpleProjection i _ => .one (planShape i)
  | .vindexFunc _ => .leaf
  | .pulloutSubquery sq u => .two (planShape sq) (planShape u)
  | .filterPlan i _ => .one (planShape i)
  | .limitPlan i => .one (planShape i)
  | .distinctPlan i => .one (planShape i)
  | .concatenateGen4 first rest => .many (planShape first) (planShapeList rest)

def planShapeList : PlanList → ShapeList
  | .nil => .nil
  | .cons p ps => .cons (planShape p) (planShapeList ps)
end

/-- One entry of a join's `Cols` vector is well formed: non-zero, and its
magnitude minus one addresses a column of the child on the side given by
its sign. -/
def colEntryOK (wl wr : Nat) (c : Int) : Bool :=
  if c < 0 then c.natAbs - 1 < wl
  else if 0 < c then c.natAbs - 1 < wr
  else false

mutual
/-- The column-addressing invariant of §3.2: join `Cols` entries are signed
1-based child offsets, semi-join entries come from the lhs, simple
projections and ordered aggregates address columns of their input. -/
def wellFormed : LogicalPlan → Bool
  | .routeGen4 _ => true
  | .joinGen4 l r _ cols _ =>
      cols.all (colEntryOK (width l) (width r)) && wellFormed l && wellFormed r
  | .hashJoin l r _ cols =>
      cols.all (colEntryOK (width l) (width r)) && wellFormed l && wellFormed r
  | .semiJoin l r cols =>
      cols.all (fun c => decide (c < 0) && decide (c.natAbs - 1 < width l)) &&
        wellFormed l && wellFormed r
  | .orderedAggregate i e =>
      e.aggregates.all (fun a => a.col < width i) &&
        e.groupByKeys.all (fun g => g.keyCol < width i) && wellFormed i
  | .memorySort i _ => wellFormed i
  | .simpleProjection i cols => cols.all (fun c => c < width i) && wellFormed i
  | .vindexFunc _ => true
  | .pulloutSubquery sq u => wellFormed sq && wellFormed u
  | .filterPlan i _ => wellFormed i
  | .limitPlan i => wellFormed i
  | .distinctPlan i => wellFormed i
  | .concatenateGen4 first rest => wellFormed first && wellFormedList rest

def wellFormedList : PlanList → Bool
  | .nil => true
  | .cons p ps => wellFormed p && wellFormedList ps
end

/-! ## The planning context -/

/-- The planningContext, carrying the semantic table and the vschema
queries the planner makes.  `exprHasUniqueVindex` and `createQP` live
outside this source file; `exprHasUniqueVindex` answers whether a column
expression carries a unique vindex, and `createQP` is
abstract.CreateQPFromSelect. -/
structure PlanningContext where
  semTable : SemTable
  /-- Modelled from the spec: exprHasUniqueVindex(vschema, semTable, expr). -/
  exprHasUniqueVindex : Expr → Bool
  /-- Modelled from the spec: abstract.CreateQPFromSelect builds the
  normalized query projection from the SELECT and the semantic table. -/
  createQP : SelectCore → Except Err QueryProjection

/-! ## The horizon-planning record -/

/-- The horizonPlanning record (driver state). `qp` is `none` until
`planHorizon` installs the query projection. -/
structure HorizonPlanning where
  sel : SelectCore
  qp : Option QueryProjection
  needsTruncation : Bool
  vtgateGrouping : Bool

/-- Read the installed query projection (always `some` on the paths that
use it; `planHorizon` installs it before any of them runs). -/
def HorizonPlanning.getQP (hp : HorizonPlanning) : QueryProjection :=
  hp.qp.getD emptyQP

/-- haveToTruncate: `needs-truncation` is monotone. -/
def HorizonPlanning.haveToTruncate (hp : HorizonPlanning) (v : Bool) : HorizonPlanning :=
  { hp with needsTruncation := hp.needsTruncation || v }

/-! ## The projection pusher -/

/-- One select item matches the incoming expression for reuse: equal
recursive dependency sets, and (a) both bare columns with equal names on
an unaliased item, or (b) structural equality on an unaliased item, or
(c) the item's alias equals the incoming column's name.  Star items never
match (the Go loop skips them). -/
def itemMatchesForReuse (exprDep : TableSet) (expr : AliasedExpr) (st : SemTable) :
    SelectExprItem → Bool
  | .star => false
  | .aliased sExpr sAs =>
    st.recursiveDeps sExpr == exprDep &&
      (if sAs == "" then
        (match sExpr, expr.expr with
         | .colName _ _ n1, .colName _ _ n2 => ciEqual n2 n1
         | _, _ => false) || exprEqual sExpr expr.expr
       else
        match expr.expr with
        | .colName _ _ nm => ciEqual sAs nm
        | _ => false)

/-- Scan of checkIfAlreadyExists over the select items, carrying the index.
Returns the Go function's `int` result (`-1` when absent). -/
def checkExistsAux (exprDep : TableSet) (expr : AliasedExpr) (st : SemTable) :
    List SelectExprItem → Nat → Int
  | [], _ => -1
  | item :: rest, i =>
    if itemMatchesForReuse exprDep expr st item then Int.ofNat i
    else checkExistsAux exprDep expr st rest (i + 1)

/-- checkIfAlreadyExists: find the index of a matching projection in the
first SELECT of the statement, or `-1`.  Two expressions match when their
recursive dependency sets are equal and (a) both are columns with equal
names and the existing item is unaliased, (b) both are structurally equal
and the existing item is unaliased, or (c) the existing item's alias equals
the incoming column's name. -/
def checkIfAlreadyExists (expr : AliasedExpr) (node : SelectStatement) (st : SemTable) : Int :=
  let exprDep := st.recursiveDeps expr.expr
  let sel := getFirstSelect node
  checkExistsAux exprDep expr st sel.selectExprs 0

/-- rewriteProjectionOfDerivedTable: when the expression belongs to a
derived table, rewrite it to the column name used inside that table. -/
def rewriteProjectionOfDerivedTable (expr : AliasedExpr) (st : SemTable) : Except Err AliasedExpr :=
  match st.tableInfo expr.expr with
  | .failure e => .error e
  | .derived =>
    match st.rewriteDerived expr.expr with
    | .error e => .error e
    | .ok e' => .ok { expr with expr := e' }
  | _ => .ok expr

/-- The eval-engine pre-validation of a non-column expression pushed onto
a route. -/
def routePreCheck (expr : AliasedExpr) (st : SemTable) (inner : Bool) : Except Err Unit :=
  if expr.expr.isColName then .ok ()
  else
    match st.convertErr expr.expr with
    | none => .ok ()
    | some e =>
      if e.code != .unimplemented then .error e
      else if !inner then
        .error ⟨.unimplemented, "unsupported: cross-shard left join and column expressions"⟩
      else .ok ()

/-- The routeGen4 case of pushProjection. -/
def pushProjOnRoute (expr : AliasedExpr) (r : Route) (st : SemTable)
    (inner reuseCol : Bool) : Except Err (Nat × Bool × LogicalPlan) :=
  match routePreCheck expr st inner with
  | .error e => .error e
  | .ok _ =>
    let found := if reuseCol then checkIfAlreadyExists expr r.select st else -1
    if found != -1 then .ok (found.toNat, false, .routeGen4 r)
    else
      let expr := { expr with expr := removeKeyspaceFromColName expr.expr }
      match r.select with
      | .union .. =>
        .error ⟨.invalidArgument,
          "Unknown column '" ++ aliasedExprString expr ++ "' in 'order clause'"⟩
      | .sel s =>
        match rewriteProjectionOfDerivedTable expr st with
        | .error e => .error e
        | .ok expr' =>
          .ok (s.selectExprs.length, true,
            .routeGen4 { r with select := .sel { s with selectExprs := s.selectExprs ++ [expr'.toItem] } })

/-- The orderedAggregate case of pushProjection: look the expression up
among the existing aggregates, by structural equality against the source
expression or by column name against the alias. -/
def findProjInAggregates (expr : AliasedExpr) : List AggregateParams → Option Nat
  | [] => none
  | a :: rest =>
    if exprEqual a.expr expr.expr then some a.col
    else if (match expr.expr with
             | .colName _ _ nm => ciEqual nm a.aliasName
             | _ => false) then some a.col
    else findProjInAggregates expr rest

/-- Scan a join's `Cols` vector for a signed column value. -/
def findColIdx (column : Int) : List Int → Nat → Option Nat
  | [], _ => none
  | c :: rest, i => if column == c then some i else findColIdx column rest (i + 1)

/-- Scan a simple projection's `Cols` for an input offset. -/
def findNatIdx (v : Nat) : List Nat → Nat → Option Nat
  | [], _ => none
  | c :: rest, i => if v == c then some i else findNatIdx v rest (i + 1)

/-- Scan a vindexFunc's projection list for a structurally equal expression. -/
def findAliasedIdx (expr : AliasedExpr) : List AliasedExpr → Nat → Option Nat
  | [], _ => none
  | c :: rest, i =>
    if exprEqual c.expr expr.expr then some i else findAliasedIdx expr rest (i + 1)

/-- Modelled from the spec: vindexFunc.SupplyProjection (external to this
source file) installs the expression into the vindex function's projection
list, reusing an existing column when asked, and returns its offset. -/
def supplyProjection (cols : List AliasedExpr) (expr : AliasedExpr) (reuseCol : Bool) :
    Except Err (Nat × List AliasedExpr) :=
  if reuseCol then
    match findAliasedIdx expr cols 0 with
    | some i => .ok (i, cols)
    | none => .ok (cols.length, cols ++ [expr])
  else .ok (cols.length, cols ++ [expr])

/-- Update a join's bind-variable map. -/
def updateVars (vars : List (String × Nat)) (k : String) (v : Nat) : List (String × Nat) :=
  if vars.any (fun p => p.1 == k) then
    vars.map (fun p => if p.1 == k then (k, v) else p)
  else vars ++ [(k, v)]

/-- The common tail of the join cases: when reuse was requested and no
child appended, search the existing `Cols`; otherwise append the signed
provenance entry. -/
def joinReuseOrAppend (reuseCol appended : Bool) (column : Int) (cols : List Int) :
    Nat × Bool × List Int :=
  if reuseCol && !appended then
    match findColIdx column cols 0 with
    | some idx => (idx, false, cols)
    | none => (cols.length, true, cols ++ [column])
  else (cols.length, true, cols ++ [column])

mutual
/-- pushProjection: install an aliased expression into the plan and return
the column offset where its value will appear in the operator's output
frame, a flag telling whether a new column was appended anywhere in the
subtree, and the rewritten plan.  `fuel` bounds the recursion depth (the Go
original terminates because plans are finite trees; pushing the LHS columns
of a split expression re-enters the evolving left child, which structural
recursion cannot see). -/
def pushProjection (fuel : Nat) (expr : AliasedExpr) (plan : LogicalPlan) (st : SemTable)
    (inner reuseCol hasAggregation : Bool) : Except Err (Nat × Bool × LogicalPlan) :=
  match fuel with
  | 0 => .error ⟨.internal, "out of fuel"⟩
  | n + 1 =>
    match plan with
    | .routeGen4 r => pushProjOnRoute expr r st inner reuseCol
    | .hashJoin l r opcode cols =>
      let lhsSolves := containsTables l
      let rhsSolves := containsTables r
      let deps := st.recursiveDeps expr.expr
      let passDownReuseCol := if reuseCol then reuseCol else expr.asName == ""
      if deps.isSolvedBy lhsSolves then
        match pushProjection n expr l st inner passDownReuseCol hasAggregation with
        | .error e => .error e
        | .ok (offset, added, l') =>
          let (idx, fin, cols') := joinReuseOrAppend reuseCol added (-(Int.ofNat offset + 1)) cols
          .ok (idx, fin, .hashJoin l' r opcode cols')
      else if deps.isSolvedBy rhsSolves then
        match pushProjection n expr r st (inner && opcode != .leftJoin) passDownReuseCol hasAggregation with
        | .error e => .error e
        | .ok (offset, added, r') =>
          let (idx, fin, cols') := joinReuseOrAppend reuseCol added (Int.ofNat offset + 1) cols
          .ok (idx, fin, .hashJoin l r' opcode cols')
      else
        if hasAggregation then
          .error ⟨.unimplemented, "unsupported: cross-shard query with aggregates"⟩
        else
          .error ⟨.unimplemented, "unsupported: hash join with projection from both sides of the join"⟩
    | .joinGen4 l r opcode cols vars =>
      let lhsSolves := containsTables l
      let rhsSolves := containsTables r
      let deps := st.recursiveDeps expr.expr
      let passDownReuseCol := if reuseCol then reuseCol else expr.asName == ""
      if deps.isSolvedBy lhsSolves then
        match pushProjection n expr l st inner passDownReuseCol hasAggregation with
        | .error e => .error e
        | .ok (offset, added, l') =>
          let (idx, fin, cols') := joinReuseOrAppend reuseCol added (-(Int.ofNat offset + 1)) cols
          .ok (idx, fin, .joinGen4 l' r opcode cols' vars)
      else if deps.isSolvedBy rhsSolves then
        match pushProjection n expr r st (inner && opcode != .leftJoin) passDownReuseCol hasAggregation with
        | .error e => .error e
        | .ok (offset, added, r') =>
          let (idx, fin, cols') := joinReuseOrAppend reuseCol added (Int.ofNat offset + 1) cols
          .ok (idx, fin, .joinGen4 l r' opcode cols' vars)
      else
        if hasAggregation then
          .error ⟨.unimplemented, "unsupported: cross-shard query with aggregates"⟩
        else
          match st.breakExpression expr.expr lhsSolves with
          | .error e => .error e
          | .ok (bvNames, lhsCols, rewrittenExpr) =>
            match pushLHSCols n bvNames lhsCols l st inner vars with
            | .error e => .error e
            | .ok (l', vars') =>
              let expr := { expr with expr := rewrittenExpr }
              match pushProjection n expr r st (inner && opcode != .leftJoin) passDownReuseCol false with
              | .error e => .error e
              | .ok (offset, added, r') =>
                let (idx, fin, cols') := joinReuseOrAppend reuseCol added (Int.ofNat offset + 1) cols
                .ok (idx, fin, .joinGen4 l' r' opcode cols' vars')
    | .pulloutSubquery sq u =>
      match pushProjection n expr u st inner reuseCol hasAggregation with
      | .error e => .error e
      | .ok (offset, added, u') => .ok (offset, added, .pulloutSubquery sq u')
    | .simpleProjection input cols =>
      match pushProjection n expr input st inner true hasAggregation with
      | .error e => .error e
      | .ok (offset, _, input') =>
        match (if reuseCol then findNatIdx offset cols 0 else none) with
        | some i => .ok (i, false, .simpleProjection input' cols)
        | none => .ok (cols.length, true, .simpleProjection input' (cols ++ [offset]))
    | .orderedAggregate input eaggr =>
      match findProjInAggregates expr eaggr.aggregates with
      | some col => .ok (col, false, .orderedAggregate input eaggr)
      | none => .error ⟨.internal, "cannot push projections in ordered aggregates"⟩
    | .vindexFunc cols =>
      match supplyProjection cols expr reuseCol with
      | .error e => .error e
      | .ok (i, cols') => .ok (i, cols'.length > cols.length, .vindexFunc cols')
    | .limitPlan input =>
      match pushProjection n expr input st inner reuseCol hasAggregation with
      | .error e => .error e
      | .ok (offset, added, input') => .ok (offset, added, .limitPlan input')
    | .distinctPlan input =>
      match pushProjection n expr input st inner reuseCol hasAggregation with
      | .error e => .error e
      | .ok (offset, added, input') => .ok (offset, added, .distinctPlan input')
    | .semiJoin l r cols =>
      let passDownReuseCol := if reuseCol then reuseCol else expr.asName == ""
      match pushProjection n expr l st inner passDownReuseCol hasAggregation with
      | .error e => .error e
      | .ok (offset, added, l') =>
        let column : Int := -(Int.ofNat offset + 1)
        match (if reuseCol && !added then findColIdx column cols 0 else none) with
        | some idx => .ok (idx, false, .semiJoin l' r cols)
        | none => .ok (cols.length, true, .semiJoin l' r (cols ++ [column]))
    | .concatenateGen4 first rest =>
      if hasAggregation then
        .error ⟨.unimplemented, "unsupported: aggregation on unions"⟩
      else
        match pushProjection n expr first st inner reuseCol hasAggregation with
        | .error e => .error e
        | .ok (offset, added, first') =>
          if added then
            .error ⟨.internal,
              "pushing projection " ++ aliasedExprString expr ++
                " on concatenate should reference an existing column"⟩
          else .ok (offset, false, .concatenateGen4 first' rest)
    | _ =>
      .error ⟨.unimplemented, "[BUG] push projection does not yet support: " ++ planTypeName plan⟩
termination_by structural fuel

/-- Push each LHS column of a split join expression into the (evolving)
left child with forced reuse, recording the resulting offsets in the join's
bind-variable map. -/
def pushLHSCols (fuel : Nat) (bvNames : List String) (cols : List Expr)
    (left : LogicalPlan) (st : SemTable) (inner : Bool) (vars : List (String × Nat)) :
    Except Err (LogicalPlan × List (String × Nat)) :=
  match fuel with
  | 0 => .error ⟨.internal, "out of fuel"⟩
  | n + 1 =>
    match cols, bvNames with
    | [], _ => .ok (left, vars)
    | c :: cs, b :: bs =>
      match pushProjection n ⟨c, ""⟩ left st inner true false with
      | .error e => .error e
      | .ok (colOffset, _, left') =>
        pushLHSCols n bs cs left' st inner (updateVars vars b colOffset)
    | _ :: _, [] => .error ⟨.internal, "no bind variable name for column"⟩
termination_by structural fuel
end

/-! ## Column truncation -/

/-- truncateColumnsIfNeeded: finalize the truncate column count at the
root when any push-down added auxiliary columns. -/
def truncateColumnsIfNeeded (hp : HorizonPlanning) (plan : LogicalPlan) : Except Err LogicalPlan :=
  if !hp.needsTruncation then .ok plan
  else
    match plan with
    | .routeGen4 r =>
      .ok (.routeGen4 { r with eroute := { r.eroute with truncateColumnCount := hp.sel.getColumnCount } })
    | .joinGen4 _ _ _ _ _ => .ok plan
    | .semiJoin _ _ _ => .ok plan
    | .hashJoin _ _ _ _ => .ok plan
    | .orderedAggregate input eaggr =>
      .ok (.orderedAggregate input { eaggr with truncateColumnCount := hp.sel.getColumnCount })
    | .memorySort input ems =>
      .ok (.memorySort input { ems with truncateColumnCount := hp.sel.getColumnCount })
    | .pulloutSubquery sq u =>
      match truncateColumnsIfNeeded hp u with
      | .error e => .error e
      | .ok u' => .ok (.pulloutSubquery sq u')
    | .filterPlan input pred =>
      match truncateColumnsIfNeeded hp input with
      | .error e => .error e
      | .ok input' => .ok (.filterPlan input' pred)
    | _ =>
      .error ⟨.internal, "plan type not known for column truncation: " ++ planTypeName plan⟩

/-! ## Weight strings and the group-by planner -/

/-- weightStringFor: the expression weight_string(expr). -/
def weightStringFor (expr : Expr) : Expr :=
  .funcExpr "weight_string" false (.cons (.aliased expr "") .nil)

/-- The column underneath an order-by expression, as wrapAndPushExpr
unwraps it: the expression itself when it is a column reference, the
operand of a unary wrapper when that operand is a column, nothing
otherwise. -/
def unwrapColExpr (expr : Expr) : Option Expr :=
  if expr.isColName then some expr
  else
    match expr with
    | .unary _ u => if u.isColName then some u else none
    | _ => none

/-- wrapAndPushExpr: push the expression and, unless it is numeric or the
weight-string expression is absent, a weight_string sibling.  Returns the
expression offset, the weight-string offset (`-1` when omitted), whether
any column was added, and the rewritten plan. -/
def wrapAndPushExpr (fuel : Nat) (expr : Expr) (weightStrExpr : Option Expr)
    (plan : LogicalPlan) (st : SemTable) : Except Err (Nat × Int × Bool × LogicalPlan) :=
  match pushProjection fuel ⟨expr, ""⟩ plan st true true false with
  | .error e => .error e
  | .ok (offset, added, plan₁) =>
    match weightStrExpr with
    | none => .ok (offset, -1, added, plan₁)
    | some wse =>
      match unwrapColExpr expr with
      | none =>
        .error ⟨.unimplemented,
          "unsupported: in scatter query: complex order by expression: " ++ exprString expr⟩
      | some exprU =>
        let wsNeeded :=
          match st.typeIsNumeric exprU with
          | some isNum => !isNum
          | none => true
        if wsNeeded then
          match pushProjection fuel ⟨weightStringFor wse, ""⟩ plan₁ st true true false with
          | .error e => .error e
          | .ok (wsOffset, wAdded, plan₂) =>
            .ok (offset, Int.ofNat wsOffset, added || wAdded, plan₂)
        else .ok (offset, -1, added, plan₁)

/-- hasUniqueVindex over the group-by expressions: some group-by's
weight-string expression carries a unique vindex. -/
def hasUniqueVindex (ctx : PlanningContext) (groupByExprs : List GroupBy) : Bool :=
  groupByExprs.any (fun g =>
    match g.weightStrExpr with
    | some e => ctx.exprHasUniqueVindex e
    | none => false)

/-- Record a weight-string column on the distinct aggregate at `idx`. -/
def setAggregateWCol : List AggregateParams → Nat → Int → List AggregateParams
  | [], _, _ => []
  | a :: rest, 0, ws => { a with wAssigned := true, wCol := ws } :: rest
  | a :: rest, n + 1, ws => a :: setAggregateWCol rest n ws

/-- planGroupByGen4: install one group-by expression into the plan. -/
def planGroupByGen4 (fuel : Nat) (groupExpr : GroupBy) (plan : LogicalPlan)
    (st : SemTable) (wsAdded : Bool) : Except Err (Bool × LogicalPlan) :=
  match fuel with
  | 0 => .error ⟨.internal, "out of fuel"⟩
  | n + 1 =>
    match plan with
    | .routeGen4 r =>
      match r.select with
      | .sel s =>
        let s := { s with groupBy := s.groupBy ++ [groupExpr.inner] }
        -- If a weight_string was added to the select list, also add it to
        -- GROUP BY for MySQL's full_group_by mode.  (`wsAdded` implies a
        -- non-nil weight-string expression in the source.)
        let s :=
          if wsAdded then
            { s with groupBy := s.groupBy ++ [weightStringFor (groupExpr.weightStrExpr.getD .nullLit)] }
          else s
        .ok (false, .routeGen4 { r with select := .sel s })
      | .union .. =>
        -- The source asserts `node.Select.(*sqlparser.Select)` here.
        .error ⟨.internal, "[BUG] group by pushed on a union route"⟩
    | .joinGen4 l r op cols vars =>
      match wrapAndPushExpr n groupExpr.inner groupExpr.weightStrExpr (.joinGen4 l r op cols vars) st with
      | .error e => .error e
      | .ok (_, _, added, plan') => .ok (added, plan')
    | .hashJoin l r op cols =>
      match wrapAndPushExpr n groupExpr.inner groupExpr.weightStrExpr (.hashJoin l r op cols) st with
      | .error e => .error e
      | .ok (_, _, added, plan') => .ok (added, plan')
    | .orderedAggregate input eaggr =>
      match wrapAndPushExpr n groupExpr.inner groupExpr.weightStrExpr input st with
      | .error e => .error e
      | .ok (keyCol, wsOffset, colAdded, input') =>
        let eaggr :=
          if groupExpr.distinctAggrIndex == 0 then
            { eaggr with groupByKeys := eaggr.groupByKeys ++
                [{ keyCol := keyCol, weightStringCol := wsOffset,
                   expr := groupExpr.weightStrExpr,
                   collationID := st.collationFor groupExpr.inner }] }
          else if wsOffset != -1 then
            { eaggr with aggregates := setAggregateWCol eaggr.aggregates (groupExpr.distinctAggrIndex - 1) wsOffset }
          else eaggr
        match planGroupByGen4 n groupExpr input' st (wsOffset != -1) with
        | .error e => .error e
        | .ok (colAddedRecursively, input'') =>
          .ok (colAdded || colAddedRecursively, .orderedAggregate input'' eaggr)
    | .pulloutSubquery sq u =>
      match planGroupByGen4 n groupExpr u st wsAdded with
      | .error e => .error e
      | .ok (added, u') => .ok (added, .pulloutSubquery sq u')
    | .semiJoin _ _ _ =>
      .error ⟨.unimplemented, "unsupported: group by in a query having a correlated subquery"⟩
    | _ =>
      .error ⟨.unimplemented, "unsupported: group by on: " ++ planTypeName plan⟩

/-! ## The order-by planner -/

/-- isSpecialOrderBy: ordering on NULL or on RAND(). -/
def isSpecialOrderBy (o : OrderBy) : Bool :=
  if o.inner.expr.isNull then true
  else
    match o.inner.expr with
    | .funcExpr name _ _ => lowerString name == "rand"
    | _ => false

/-- A printer standing in for sqlparser.String on an ORDER BY element. -/
def orderString (o : Order) : String :=
  exprString o.expr ++ (if o.desc then " desc" else " asc")

/-- checkOrderExprCanBePlannedInScatter: on a scatter with a star
projection the ordering expression must appear in the select list. -/
def checkOrderExprCanBePlannedInScatter (r : Route) (order : OrderBy) (hasStar : Bool) :
    Except Err Unit :=
  if !hasStar then .ok ()
  else
    let sel := getFirstSelect r.select
    let found := sel.selectExprs.any (fun item =>
      match item with
      | .aliased e _ => exprEqual e order.inner.expr
      | .star => false)
    if found then .ok ()
    else
      .error ⟨.unimplemented,
        "unsupported: in scatter query: order by must reference a column in the select list: " ++
          orderString order.inner⟩

/-- The loop of planOrderByForRoute over the order expressions. -/
def planOrderByForRouteAux (fuel : Nat) (st : SemTable) (hasStar : Bool) :
    List OrderBy → Route → Except Err Route
  | [], r => .ok r
  | order :: rest, r =>
    match checkOrderExprCanBePlannedInScatter r order hasStar with
    | .error e => .error e
    | .ok _ =>
      let r := { r with select := r.select.addOrder order.inner }
      if isSpecialOrderBy order then planOrderByForRouteAux fuel st hasStar rest r
      else
        match wrapAndPushExpr fuel order.inner.expr order.weightStrExpr (.routeGen4 r) st with
        | .error e => .error e
        | .ok (offset, wsOffset, _, plan₁) =>
          match plan₁ with
          | .routeGen4 r₁ =>
            let p : OrderByParams :=
              { col := offset, weightStringCol := wsOffset, desc := order.inner.desc,
                starColFixedIndex := 0, collationID := st.collationFor order.inner.expr }
            planOrderByForRouteAux fuel st hasStar rest
              { r₁ with eroute := { r₁.eroute with orderBy := r₁.eroute.orderBy ++ [p] } }
          | _ => .error ⟨.internal, "[BUG] projection push on a route produced a non-route"⟩

/-- planOrderByForRoute: append ORDER BY to the route's SQL, install sort
keys and weight strings, and report whether the column count grew. -/
def planOrderByForRoute (fuel : Nat) (orderExprs : List OrderBy) (r : Route)
    (st : SemTable) (hasStar : Bool) : Except Err (LogicalPlan × Bool) :=
  let origColCount := r.select.getColumnCount
  match planOrderByForRouteAux fuel st hasStar orderExprs r with
  | .error e => .error e
  | .ok r' => .ok (.routeGen4 r', origColCount != r'.select.getColumnCount)

/-- Equality of optional expressions (sqlparser.EqualsExpr on nilable
arguments: two nils are equal). -/
def optExprEqual : Option Expr → Option Expr → Bool
  | none, none => true
  | some a, some b => exprEqual a b
  | _, _ => false

/-- findExprInOrderedAggr: match an order expression against the group-by
keys, then against the aggregates, returning (key column, weight-string
column, index). -/
def findExprInOrderedAggr (eaggr : EOrderedAggregate) (order : OrderBy) :
    Option (Nat × Int × Nat) :=
  let rec inKeys : List GroupByParams → Nat → Option (Nat × Int × Nat)
    | [], _ => none
    | k :: rest, idx =>
      if optExprEqual order.weightStrExpr k.expr then some (k.keyCol, k.weightStringCol, idx)
      else inKeys rest (idx + 1)
  let rec inAggrs : List AggregateParams → Nat → Option (Nat × Int × Nat)
    | [], _ => none
    | a :: rest, idx =>
      if (match order.weightStrExpr with
          | some w => exprEqual w a.expr
          | none => false) then some (a.col, -1, idx)
      else inAggrs rest (idx + 1)
  match inKeys eaggr.groupByKeys 0 with
  | some res => some res
  | none => inAggrs eaggr.aggregates 0

/-- createMemorySortPlanOnAggregation: a gateway memory sort above an
ordered aggregate, with sort keys resolved against the aggregate. -/
def createMemorySortPlanOnAggregation (input : LogicalPlan) (eaggr : EOrderedAggregate)
    (orderExprs : List OrderBy) : Except Err LogicalPlan :=
  let rec loop : List OrderBy → List OrderByParams → Except Err (List OrderByParams)
    | [], acc => .ok acc
    | order :: rest, acc =>
      match findExprInOrderedAggr eaggr order with
      | none =>
        .error ⟨.internal,
          "expected to find the order by expression (" ++ orderString order.inner ++
            ") in orderedAggregate"⟩
      | some (offset, woffset, idx) =>
        let collationID :=
          if woffset != -1 then ((eaggr.groupByKeys.get? idx).map (·.collationID)).getD 0
          else 0
        let p : OrderByParams :=
          { col := offset, weightStringCol := woffset, desc := order.inner.desc,
            starColFixedIndex := offset, collationID := collationID }
        loop rest (acc ++ [p])
  match loop orderExprs [] with
  | .error e => .error e
  | .ok params =>
    .ok (.memorySort (.orderedAggregate input eaggr) { orderBy := params, truncateColumnCount := 0 })

/-- createMemorySortPlan: a gateway memory sort above an arbitrary plan,
pushing sort keys (and weight strings when requested) into the plan. -/
def createMemorySortPlan (fuel : Nat) (hp : HorizonPlanning) (plan : LogicalPlan)
    (orderExprs : List OrderBy) (st : SemTable) (useWeightStr : Bool) :
    Except Err (HorizonPlanning × LogicalPlan) :=
  let rec loop (hp : HorizonPlanning) (plan : LogicalPlan) :
      List OrderBy → List OrderByParams → Except Err (HorizonPlanning × LogicalPlan × List OrderByParams)
    | [], acc => .ok (hp, plan, acc)
    | order :: rest, acc =>
      let wsExpr := if useWeightStr then order.weightStrExpr else none
      match wrapAndPushExpr fuel order.inner.expr wsExpr plan st with
      | .error e => .error e
      | .ok (offset, weightStringOffset, added, plan') =>
        let p : OrderByParams :=
          { col := offset, weightStringCol := weightStringOffset, desc := order.inner.desc,
            starColFixedIndex := offset, collationID := st.collationFor order.inner.expr }
        loop (hp.haveToTruncate added) plan' rest (acc ++ [p])
  match loop hp plan orderExprs [] with
  | .error e => .error e
  | .ok (hp', plan', params) =>
    .ok (hp', .memorySort plan' { orderBy := params, truncateColumnCount := 0 })

/-- orderExprsDependsOnTableSet: every order expression is solved by the
given table set. -/
def orderExprsDependsOnTableSet (orderExprs : List OrderBy) (st : SemTable) (ts : TableSet) : Bool :=
  orderExprs.all (fun o => (st.recursiveDeps o.inner.expr).isSolvedBy ts)

mutual
/-- planOrderBy: install ordering into the plan, in the route's SQL or
through a gateway memory sort. -/
def planOrderBy (fuel : Nat) (ctx : PlanningContext) (hp : HorizonPlanning)
    (orderExprs : List OrderBy) (plan : LogicalPlan) :
    Except Err (HorizonPlanning × LogicalPlan) :=
  match fuel with
  | 0 => .error ⟨.internal, "out of fuel"⟩
  | n + 1 =>
    match plan with
    | .routeGen4 r =>
      match planOrderByForRoute n orderExprs r ctx.semTable hp.getQP.hasStar with
      | .error e => .error e
      | .ok (newPlan, truncate) => .ok (hp.haveToTruncate truncate, newPlan)
    | .joinGen4 l r op cols vars => planOrderByForJoin n ctx hp orderExprs l r op cols vars
    | .hashJoin l r op cols => planOrderByForHashJoin n ctx hp orderExprs l r op cols
    | .orderedAggregate input eaggr =>
      -- ORDER BY NULL is dropped: ordering happens at the gateway.
      let orderExprs := orderExprs.filter (fun o => !o.inner.expr.isNull)
      if orderExprs.any (fun o =>
          match o.weightStrExpr with
          | some w => containsAggregation w
          | none => false) then
        match createMemorySortPlanOnAggregation input eaggr orderExprs with
        | .error e => .error e
        | .ok ms => .ok (hp, ms)
      else
        match planOrderBy n ctx hp orderExprs input with
        | .error e => .error e
        | .ok (hp', input') => .ok (hp', .orderedAggregate input' eaggr)
    | .memorySort i e => .ok (hp, .memorySort i e)
    | .simpleProjection i cols =>
      createMemorySortPlan n hp (.simpleProjection i cols) orderExprs ctx.semTable true
    | .vindexFunc cols =>
      -- Evaluated at the gateway only: weight_string cannot be used.
      createMemorySortPlan n hp (.vindexFunc cols) orderExprs ctx.semTable false
    | .limitPlan input =>
      match planOrderBy n ctx hp orderExprs input with
      | .error e => .error e
      | .ok (hp', input') => .ok (hp', .limitPlan input')
    | .semiJoin l r cols =>
      match planOrderBy n ctx hp orderExprs l with
      | .error e => .error e
      | .ok (hp', l') => .ok (hp', .semiJoin l' r cols)
    | .filterPlan input pred =>
      match planOrderBy n ctx hp orderExprs input with
      | .error e => .error e
      | .ok (hp', input') => .ok (hp', .filterPlan input' pred)
    | .pulloutSubquery sq u =>
      match planOrderBy n ctx hp orderExprs u with
      | .error e => .error e
      | .ok (hp', u') => .ok (hp', .pulloutSubquery sq u')
    | _ =>
      .error ⟨.unimplemented, "ordering on complex query " ++ planTypeName plan⟩
termination_by structural fuel

/-- planOrderByForJoin: push a lone special order into both sides; push a
left-only ordering into the left child; otherwise memory-sort above. -/
def planOrderByForJoin (fuel : Nat) (ctx : PlanningContext) (hp : HorizonPlanning)
    (orderExprs : List OrderBy) (l r : LogicalPlan) (op : JoinOpcode)
    (cols : List Int) (vars : List (String × Nat)) :
    Except Err (HorizonPlanning × LogicalPlan) :=
  match fuel with
  | 0 => .error ⟨.internal, "out of fuel"⟩
  | n + 1 =>
    if (match orderExprs with
        | [o] => isSpecialOrderBy o
        | _ => false) then
      match planOrderBy n ctx hp orderExprs l with
      | .error e => .error e
      | .ok (hp₁, lhs) =>
        match planOrderBy n ctx hp₁ orderExprs r with
        | .error e => .error e
        | .ok (hp₂, rhs) => .ok (hp₂, .joinGen4 lhs rhs op cols vars)
    else if orderExprsDependsOnTableSet orderExprs ctx.semTable (containsTables l) then
      match planOrderBy n ctx hp orderExprs l with
      | .error e => .error e
      | .ok (hp₁, newLeft) => .ok (hp₁, .joinGen4 newLeft r op cols vars)
    else
      createMemorySortPlan n hp (.joinGen4 l r op cols vars) orderExprs ctx.semTable true
termination_by structural fuel

/-- planOrderByForHashJoin: as for joins, but the push-through side is the
right child. -/
def planOrderByForHashJoin (fuel : Nat) (ctx : PlanningContext) (hp : HorizonPlanning)
    (orderExprs : List OrderBy) (l r : LogicalPlan) (op : JoinOpcode)
    (cols : List Int) : Except Err (HorizonPlanning × LogicalPlan) :=
  match fuel with
  | 0 => .error ⟨.internal, "out of fuel"⟩
  | n + 1 =>
    if (match orderExprs with
        | [o] => isSpecialOrderBy o
        | _ => false) then
      match planOrderBy n ctx hp orderExprs r with
      | .error e => .error e
      | .ok (hp₁, rhs) => .ok (hp₁, .hashJoin l rhs op cols)
    else if orderExprsDependsOnTableSet orderExprs ctx.semTable (containsTables r) then
      match planOrderBy n ctx hp orderExprs r with
      | .error e => .error e
      | .ok (hp₁, newRight) => .ok (hp₁, .hashJoin l newRight op cols)
    else
      createMemorySortPlan n hp (.hashJoin l r op cols) orderExprs ctx.semTable true
termination_by structural fuel
end

/-! ## The aggregation planner -/

/-- needDistinctHandling: DISTINCT inside COUNT or SUM must be handled at
the gateway unless the argument column carries a unique vindex on the
route.  Returns the inner aliased argument to push when handling is
needed. -/
def needDistinctHandling (ctx : PlanningContext) (funcExpr : Expr)
    (opcode : AggregateOpcode) (input : LogicalPlan) :
    Except Err (Bool × Option AliasedExpr) :=
  match funcExpr with
  | .funcExpr _ fdistinct fargs =>
    if !fdistinct then .ok (false, none)
    else if opcode != .count && opcode != .sum then .ok (false, none)
    else
      match fargs with
      | .cons (.aliased e a) _ =>
        let innerAliased : AliasedExpr := ⟨e, a⟩
        match input with
        | .routeGen4 _ =>
          if ctx.exprHasUniqueVindex innerAliased.expr then .ok (false, none)
          else .ok (true, some innerAliased)
        | _ =>
          -- Unreachable in the source.
          .ok (true, some innerAliased)
      | _ =>
        -- The first argument is not an aliased expression (for example a
        -- star expression).
        .error ⟨.invalidArgument, "syntax error: " ++ exprString funcExpr⟩
  | _ =>
    -- Unreachable: every caller passes a function call.
    .ok (false, none)

/-- createPushExprAndAlias: the expression pushed to the leaves for an
aggregate select item; on the distinct path it rewrites the push target to
the inner argument, switches the opcode to the distinct variant, sets
PreProcess, marks truncation and appends a synthetic group-by. -/
def createPushExprAndAlias (hp : HorizonPlanning) (expr : QPSelectExpr)
    (handleDistinct : Bool) (innerAliased : Option AliasedExpr)
    (opcode : AggregateOpcode) (eaggr : EOrderedAggregate) :
    Option AliasedExpr × String × AggregateOpcode × HorizonPlanning × EOrderedAggregate :=
  match expr.col.asAliased with
  | none => (none, "", .count, hp, eaggr)
  | some aliasExpr =>
    let aliasStr := if aliasExpr.asName == "" then exprString aliasExpr.expr else aliasExpr.asName
    if handleDistinct then
      match innerAliased with
      | none =>
        -- Unreachable: the source dereferences innerAliased, which is
        -- non-nil whenever handleDistinct holds.
        (some aliasExpr, aliasStr, opcode, hp, eaggr)
      | some ia =>
        let opcode :=
          match opcode with
          | .count => .countDistinct
          | .sum => .sumDistinct
          | o => o
        let eaggr := { eaggr with preProcess := true }
        let hp := hp.haveToTruncate true
        let newGroupBy : GroupBy :=
          { inner := ia.expr, weightStrExpr := some ia.expr,
            distinctAggrIndex := eaggr.aggregates.length + 1 }
        let qp := hp.getQP
        let hp := { hp with qp := some { qp with groupByExprs := qp.groupByExprs ++ [newGroupBy] } }
        (some ia, aliasStr, opcode, hp, eaggr)
    else (some aliasExpr, aliasStr, opcode, hp, eaggr)

/-- The select-item loop of planAggregations: ordinary items are pushed
onto the input plan; aggregates on the ordered-aggregate path are recorded
on the aggregate payload. -/
def processAggrSelectExprs (fuel : Nat) (ctx : PlanningContext) :
    List QPSelectExpr → HorizonPlanning → LogicalPlan → Option EOrderedAggregate →
    Except Err (HorizonPlanning × LogicalPlan × Option EOrderedAggregate)
  | [], hp, plan, eaggrOpt => .ok (hp, plan, eaggrOpt)
  | e :: rest, hp, plan, eaggrOpt =>
    match e.getAliasedExpr with
    | .error err => .error err
    | .ok aliasExpr =>
      match eaggrOpt with
      | none =>
        match pushProjection fuel aliasExpr plan ctx.semTable true false false with
        | .error err => .error err
        | .ok (_, _, plan') => processAggrSelectExprs fuel ctx rest hp plan' none
      | some eaggr =>
        if !e.aggr then
          match pushProjection fuel aliasExpr plan ctx.semTable true false false with
          | .error err => .error err
          | .ok (_, _, plan') => processAggrSelectExprs fuel ctx rest hp plan' (some eaggr)
        else
          match aliasExpr.expr with
          | .funcExpr fname fdist fargs =>
            let funcName := lowerString fname
            match supportedAggregates funcName with
            | none =>
              .error ⟨.unimplemented,
                "unsupported: in scatter query: aggregation function '" ++ funcName ++ "'"⟩
            | some opcode =>
              match needDistinctHandling ctx (.funcExpr fname fdist fargs) opcode plan with
              | .error err => .error err
              | .ok (handleDistinct, innerAliased) =>
                match createPushExprAndAlias hp e handleDistinct innerAliased opcode eaggr with
                | (none, _, _, _, _) =>
                  -- Unreachable: the item was shown to be aliased above.
                  .error ⟨.internal, "[BUG] aggregate select item lost its aliased expression"⟩
                | (some pushExpr, aliasStr, opcode', hp', eaggr') =>
                  match pushProjection fuel pushExpr plan ctx.semTable true false true with
                  | .error err => .error err
                  | .ok (offset, _, plan') =>
                    let newAggr : AggregateParams :=
                      { opcode := opcode', col := offset, aliasName := aliasStr,
                        expr := .funcExpr fname fdist fargs, wAssigned := false, wCol := 0 }
                    processAggrSelectExprs fuel ctx rest hp' plan'
                      (some { eaggr' with aggregates := eaggr'.aggregates ++ [newAggr] })
          | _ =>
            .error ⟨.unimplemented, "unsupported: in scatter query: complex aggregate expression"⟩

/-- The group-by loop of planAggregations. -/
def processGroupByExprs (fuel : Nat) (st : SemTable) :
    List GroupBy → HorizonPlanning → LogicalPlan →
    Except Err (HorizonPlanning × LogicalPlan)
  | [], hp, newPlan => .ok (hp, newPlan)
  | g :: rest, hp, newPlan =>
    match planGroupByGen4 fuel g newPlan st false with
    | .error e => .error e
    | .ok (added, newPlan') => processGroupByExprs fuel st rest (hp.haveToTruncate added) newPlan'

/-- Modelled from the spec: newFilter (external to this source file) wraps
the plan in a gateway filter node carrying the predicate. -/
def newFilter (_st : SemTable) (plan : LogicalPlan) (expr : Expr) : Except Err LogicalPlan :=
  .ok (.filterPlan plan expr)

/-- pushHaving: install a HAVING predicate. -/
def pushHaving (expr : Expr) (plan : LogicalPlan) (st : SemTable) : Except Err LogicalPlan :=
  match plan with
  | .routeGen4 r =>
    .ok (.routeGen4 { r with select := updateFirstSelect (fun s => s.addHaving expr) r.select })
  | .pulloutSubquery _ u =>
    -- The source returns the recursion's result directly, so the
    -- pullout wrapper is not re-attached to the returned plan.
    pushHaving expr u st
  | .simpleProjection _ _ =>
    .error ⟨.unimplemented, "unsupported: filtering on results of cross-shard derived table"⟩
  | .orderedAggregate input eaggr => newFilter st (.orderedAggregate input eaggr) expr
  | _ => .error ⟨.internal, "[BUG] unreachable " ++ planTypeName plan ++ ".filtering"⟩

/-- planHaving. -/
def planHaving (hp : HorizonPlanning) (ctx : PlanningContext) (plan : LogicalPlan) :
    Except Err LogicalPlan :=
  match hp.sel.having with
  | none => .ok plan
  | some h => pushHaving h plan ctx.semTable

/-- The post-check of planAggregations: when the final plan is not a bare
route, a non-aggregate select item containing an aggregate is rejected. -/
def checkAggrExprs : List QPSelectExpr → Except Err Unit
  | [] => .ok ()
  | e :: rest =>
    match e.getExpr with
    | .error err => .error err
    | .ok colExpr =>
      if !colExpr.isAggregation && containsAggregation colExpr then
        .error ⟨.unimplemented, "unsupported: in scatter query: complex aggregate expression"⟩
      else checkAggrExprs rest

/-- Apply the planAggregations post-check to the final plan. -/
def postCheckAggregations (hp : HorizonPlanning) (plan : LogicalPlan) :
    Except Err (HorizonPlanning × LogicalPlan) :=
  match plan with
  | .routeGen4 _ => .ok (hp, plan)
  | _ =>
    match checkAggrExprs hp.getQP.selectExprs with
    | .error e => .error e
    | .ok _ => .ok (hp, plan)

/-- planAggregations: wrap the plan in an ordered aggregate when grouping
cannot rely on a unique vindex, push the projections, plan group-bys and
HAVING, and pre-sort the input when sorting cannot be pushed down later. -/
def planAggregations (fuel : Nat) (ctx : PlanningContext) (hp : HorizonPlanning)
    (plan : LogicalPlan) : Except Err (HorizonPlanning × LogicalPlan) :=
  let qp := hp.getQP
  let uniqVindex := hasUniqueVindex ctx qp.groupByExprs
  let joinPlan := isJoin plan
  let mkOA : Except Err (Option EOrderedAggregate × HorizonPlanning) :=
    if !uniqVindex || joinPlan then
      match qp.projectionError with
      | some e => .error e
      | none => .ok (some emptyEAggr, { hp with vtgateGrouping := true })
    else .ok (none, hp)
  match mkOA with
  | .error e => .error e
  | .ok (eaggrOpt, hp) =>
    if joinPlan && qp.hasAggr && qp.groupByExprs.length > 0 then
      .error ⟨.unimplemented, "unsupported: cross-shard query with aggregates"⟩
    else
      match processAggrSelectExprs fuel ctx qp.selectExprs hp plan eaggrOpt with
      | .error e => .error e
      | .ok (hp₁, plan₁, eaggrOpt₁) =>
        let newPlan₁ : LogicalPlan :=
          match eaggrOpt₁ with
          | some ea => .orderedAggregate plan₁ ea
          | none => plan₁
        match processGroupByExprs fuel ctx.semTable hp₁.getQP.groupByExprs hp₁ newPlan₁ with
        | .error e => .error e
        | .ok (hp₂, newPlan₂) =>
          match planHaving hp₂ ctx newPlan₂ with
          | .error e => .error e
          | .ok newPlan₃ =>
            match eaggrOpt₁ with
            | none => postCheckAggregations hp₂ newPlan₃
            | some _ =>
              if !hp₂.getQP.canPushDownSorting then
                match newPlan₂ with
                | .orderedAggregate innerPlan eaggrCur =>
                  let orderExprs : List OrderBy := hp₂.getQP.groupByExprs.map (fun g =>
                    { inner := { expr := g.inner, desc := false }, weightStrExpr := g.weightStrExpr })
                  if orderExprs.length > 0 then
                    match planOrderBy fuel ctx hp₂ orderExprs innerPlan with
                    | .error e => .error e
                    | .ok (hp₃, newInput) =>
                      postCheckAggregations hp₃ (.orderedAggregate newInput eaggrCur)
                  else
                    -- No group-bys to pre-sort on: the function falls back
                    -- to the (unwrapped) input plan, discarding the
                    -- ordered aggregate built above.
                    postCheckAggregations hp₂ innerPlan
                | _ => .error ⟨.internal, "[BUG] lost the ordered aggregate"⟩
              else postCheckAggregations hp₂ newPlan₃

/-- planGroupByUsingOrderBy: order by every group-by not already ordered
on, so the gateway sort aligns with the required group order. -/
def planGroupByUsingOrderBy (fuel : Nat) (ctx : PlanningContext) (hp : HorizonPlanning)
    (plan : LogicalPlan) : Except Err (HorizonPlanning × LogicalPlan) :=
  let qp := hp.getQP
  let orderExprs : List OrderBy := qp.groupByExprs.filterMap (fun g =>
    if qp.orderExprs.any (fun o => exprEqual g.inner o.inner.expr) then none
    else some { inner := { expr := g.inner, desc := false }, weightStrExpr := g.weightStrExpr })
  if orderExprs.length > 0 then planOrderBy fuel ctx hp orderExprs plan
  else .ok (hp, plan)

/-! ## The distinct planner -/

/-- One other select item collides with the alias `col`: its explicit
alias, or its bare column name when unaliased, equals `col`
case-insensitively.  A star item is reported as a collision (a TODO in
the source). -/
def collidesWith (col : String) (e : QPSelectExpr) : Bool :=
  match e.col with
  | .star => true
  | .aliased ex a =>
    let otherAlias := if a == "" then (match ex with | .colName _ _ nm => nm | _ => "") else a
    ciEqual col otherAlias

/-- The scan of isAmbiguousOrderBy over the select items, skipping the
item at `index` itself; `i` is the absolute position of the list head. -/
def ambiguousScan (index : Nat) (col : String) : List QPSelectExpr → Nat → Bool
  | [], _ => false
  | e :: rest, i =>
    if i == index then ambiguousScan index col rest (i + 1)
    else if collidesWith col e then true
    else ambiguousScan index col rest (i + 1)

/-- isAmbiguousOrderBy: the alias of one select item collides with another
item's alias or bare column name (star items are reported ambiguous). -/
def isAmbiguousOrderBy (index : Nat) (col : String) (exprs : List QPSelectExpr) : Bool :=
  if col == "" then false
  else ambiguousScan index col exprs 0

/-- selectHasUniqueVindex: some projected expression carries a unique
vindex (a star item makes the answer false). -/
def selectHasUniqueVindex (ctx : PlanningContext) : List QPSelectExpr → Bool
  | [] => false
  | e :: rest =>
    match e.getExpr with
    | .error _ => false
    | .ok exp =>
      if ctx.exprHasUniqueVindex exp then true else selectHasUniqueVindex ctx rest

/-- The per-item loop of addDistinct: reject ambiguous aliases, push each
projected expression with its weight string, and collect one group-by
parameter per item (KeyCol = the item's index) plus the order-by list. -/
def addDistinctLoop (fuel : Nat) (all : List QPSelectExpr) :
    List QPSelectExpr → Nat → PlanningContext → HorizonPlanning → LogicalPlan →
    List GroupByParams → List OrderBy →
    Except Err (PlanningContext × HorizonPlanning × LogicalPlan × List GroupByParams × List OrderBy)
  | [], _, ctx, hp, plan, keys, orders => .ok (ctx, hp, plan, keys, orders)
  | sExpr :: rest, index, ctx, hp, plan, keys, orders =>
    match sExpr.getAliasedExpr with
    | .error e => .error e
    | .ok aliasExpr =>
      if isAmbiguousOrderBy index aliasExpr.asName all then
        .error ⟨.unimplemented,
          "generating order by clause: ambiguous symbol reference: " ++ aliasExpr.asName⟩
      else
        let innerCtx : Expr × PlanningContext :=
          if aliasExpr.asName == "" then (aliasExpr.expr, ctx)
          else
            let inner := newColName aliasExpr.asName
            (inner, { ctx with semTable := ctx.semTable.copyDependencies aliasExpr.expr inner })
        let inner := innerCtx.1
        let ctx := innerCtx.2
        match wrapAndPushExpr fuel aliasExpr.expr (some aliasExpr.expr) plan ctx.semTable with
        | .error e => .error e
        | .ok (_, wOffset, added, plan') =>
          let hp := { hp with needsTruncation := hp.needsTruncation || added }
          let grpParam : GroupByParams :=
            { keyCol := index, weightStringCol := wOffset, expr := none,
              collationID := ctx.semTable.collationFor inner }
          let newOrder : OrderBy :=
            { inner := { expr := inner, desc := false }, weightStrExpr := some aliasExpr.expr }
          addDistinctLoop fuel all rest (index + 1) ctx hp plan'
            (keys ++ [grpParam]) (orders ++ [newOrder])

/-- addDistinct: gateway-side dedup via an ordered aggregate grouping on
every projected column, above an ORDER BY on the same columns. -/
def addDistinct (fuel : Nat) (ctx : PlanningContext) (hp : HorizonPlanning)
    (plan : LogicalPlan) : Except Err (PlanningContext × HorizonPlanning × LogicalPlan) :=
  match addDistinctLoop fuel hp.getQP.selectExprs hp.getQP.selectExprs 0 ctx hp plan [] [] with
  | .error e => .error e
  | .ok (ctx', hp', plan', keys, orders) =>
    match planOrderBy fuel ctx' hp' orders plan' with
    | .error e => .error e
    | .ok (hp'', innerPlan) =>
      .ok (ctx', hp'',
        .orderedAggregate innerPlan
          { preProcess := false, aggregates := [], groupByKeys := keys, truncateColumnCount := 0 })

/-- planDistinctOA: a fresh ordered aggregate whose group-by keys cover
every select expression, resolved against the current aggregate. -/
def planDistinctOA (st : SemTable) (qp : QueryProjection) (input : LogicalPlan)
    (eaggrCur : EOrderedAggregate) : Except Err LogicalPlan :=
  let rec loop : List QPSelectExpr → List GroupByParams → Except Err (List GroupByParams)
    | [], acc => .ok acc
    | sExpr :: rest, acc =>
      match sExpr.getExpr with
      | .error e => .error e
      | .ok expr =>
        match eaggrCur.groupByKeys.find? (fun k =>
            match k.expr with
            | some ke => exprEqual expr ke
            | none => false) with
        | some grpParam => loop rest (acc ++ [grpParam])
        | none =>
          match eaggrCur.aggregates.find? (fun a => exprEqual expr a.expr) with
          | some aggrParam =>
            loop rest (acc ++
              [{ keyCol := aggrParam.col, weightStringCol := -1, expr := none,
                 collationID := st.collationFor expr }])
          | none =>
            .error ⟨.internal,
              "[BUG] unable to plan distinct query as the column is not projected: " ++
                itemString sExpr.col⟩
  match loop qp.selectExprs [] with
  | .error e => .error e
  | .ok keys =>
    .ok (.orderedAggregate (.orderedAggregate input eaggrCur)
      { preProcess := false, aggregates := [], groupByKeys := keys, truncateColumnCount := 0 })

/-- planDistinct. -/
def planDistinct (fuel : Nat) (ctx : PlanningContext) (hp : HorizonPlanning)
    (plan : LogicalPlan) : Except Err (PlanningContext × HorizonPlanning × LogicalPlan) :=
  if !hp.getQP.needsDistinctFlag then .ok (ctx, hp, plan)
  else
    match plan with
    | .routeGen4 r =>
      let r := { r with select := r.select.makeDistinct }
      if r.singleShard || selectHasUniqueVindex ctx hp.getQP.selectExprs then
        .ok (ctx, hp, .routeGen4 r)
      else addDistinct fuel ctx hp (.routeGen4 r)
    | .joinGen4 l rr op cols vars => addDistinct fuel ctx hp (.joinGen4 l rr op cols vars)
    | .pulloutSubquery sq u => addDistinct fuel ctx hp (.pulloutSubquery sq u)
    | .orderedAggregate input eaggr =>
      match planDistinctOA ctx.semTable hp.getQP input eaggr with
      | .error e => .error e
      | .ok p => .ok (ctx, hp, p)
    | _ => .error ⟨.internal, "unknown plan type for DISTINCT " ++ planTypeName plan⟩

/-! ## The horizon driver -/

/-- Modelled from the spec: planSingleShardRoutePlan (external to this
source file) installs the full SELECT — projection, ORDER BY, GROUP BY,
HAVING, LIMIT, DISTINCT — directly into the route's SQL. -/
def planSingleShardRoutePlan (sel : SelectCore) (r : Route) : Route :=
  let install : SelectCore → SelectCore := fun c =>
    { c with
      selectExprs := sel.selectExprs
      groupBy := sel.groupBy
      orderBy := sel.orderBy
      having := sel.having
      isDistinct := sel.isDistinct
      limit := sel.limit }
  { r with select := updateFirstSelect install r.select }

/-- pushProjections: push every select item onto the plan. -/
def pushProjections (fuel : Nat) (ctx : PlanningContext) :
    List QPSelectExpr → LogicalPlan → Except Err LogicalPlan
  | [], plan => .ok plan
  | e :: rest, plan =>
    match e.getAliasedExpr with
    | .error err => .error err
    | .ok aliasExpr =>
      match pushProjection fuel aliasExpr plan ctx.semTable true false false with
      | .error err => .error err
      | .ok (_, _, plan') => pushProjections fuel ctx rest plan'

/-- The part of planHorizon after the single-shard shortcut has been ruled
out: build the query projection and run aggregation, ordering, distinct
and truncation planning. -/
def planHorizonRest (fuel : Nat) (ctx : PlanningContext) (hp : HorizonPlanning)
    (plan : LogicalPlan) (isRoute : Bool) (rb : Option Route) :
    Except Err (PlanningContext × HorizonPlanning × LogicalPlan) :=
  match ctx.createQP hp.sel with
  | .error e => .error e
  | .ok qp =>
    let hp := { hp with qp := some qp }
    let needAggrOrHaving := qp.needsAggregationFlag || hp.sel.having.isSome
    let canShortcut := isRoute && !needAggrOrHaving && qp.orderExprs.length == 0
    let step6 : Except Err (HorizonPlanning × LogicalPlan) :=
      if needAggrOrHaving then planAggregations fuel ctx hp plan
      else
        let plan₁ : LogicalPlan :=
          match plan with
          | .orderedAggregate i e => .simpleProjection (.orderedAggregate i e) []
          | _ => plan
        if canShortcut then
          match rb with
          | some r => .ok (hp, .routeGen4 (planSingleShardRoutePlan hp.sel r))
          | none => .error ⟨.internal, "[BUG] shortcut without a route"⟩
        else
          match pushProjections fuel ctx qp.selectExprs plan₁ with
          | .error err => .error err
          | .ok plan₂ => .ok (hp, plan₂)
    match step6 with
    | .error e => .error e
    | .ok (hp₂, plan₂) =>
      let step7 : Except Err (HorizonPlanning × LogicalPlan) :=
        if !canShortcut then
          let afterOrder : Except Err (HorizonPlanning × LogicalPlan) :=
            if hp₂.getQP.orderExprs.length > 0 then
              planOrderBy fuel ctx hp₂ hp₂.getQP.orderExprs plan₂
            else .ok (hp₂, plan₂)
          match afterOrder with
          | .error e => .error e
          | .ok (hp₃, plan₃) =>
            if hp₃.getQP.canPushDownSorting && hp₃.vtgateGrouping then
              planGroupByUsingOrderBy fuel ctx hp₃ plan₃
            else .ok (hp₃, plan₃)
        else .ok (hp₂, plan₂)
      match step7 with
      | .error e => .error e
      | .ok (hp₄, plan₄) =>
        match planDistinct fuel ctx hp₄ plan₄ with
        | .error e => .error e
        | .ok (ctx₅, hp₅, plan₅) =>
          match truncateColumnsIfNeeded hp₅ plan₅ with
          | .error e => .error e
          | .ok plan₆ => .ok (ctx₅, hp₅, plan₆)

/-- planHorizon: the driver.  A single-shard route takes the shortcut; a
non-route root in a sharded-error state fails; everything else goes
through the full pipeline. -/
def planHorizon (fuel : Nat) (ctx : PlanningContext) (hp : HorizonPlanning)
    (plan : LogicalPlan) : Except Err (PlanningContext × HorizonPlanning × LogicalPlan) :=
  match plan with
  | .routeGen4 r =>
    if r.singleShard then
      .ok (ctx, hp, .routeGen4 (planSingleShardRoutePlan hp.sel r))
    else planHorizonRest fuel ctx hp (.routeGen4 r) true (some r)
  | _ =>
    match ctx.semTable.shardedError with
    | some e => .error e
    | none => planHorizonRest fuel ctx hp plan false none

/-! ## Sample objects for concrete witnesses -/

/-- A semantic table with no dependencies, numeric types, and no errors. -/
def sampleSt : SemTable :=
  { recursiveDeps := fun _ => 0, typeIsNumeric := fun _ => some true,
    collationFor := fun _ => 0, shardedError := none,
    convertErr := fun _ => none, tableInfo := fun _ => .notDerived,
    rewriteDerived := fun e => .ok e,
    breakExpression := fun e _ => .ok ([], [], e) }

/-- A semantic table whose eval-engine conversion always reports an
unimplemented construct. -/
def sampleStUnimpl : SemTable :=
  { sampleSt with convertErr := fun _ => some ⟨.unimplemented, "expr conversion not supported"⟩ }

/-- A semantic table typing every expression as textual. -/
def sampleStText : SemTable :=
  { sampleSt with typeIsNumeric := fun _ => some false }

/-- The column expression `a`. -/
def sampleColA : Expr := .colName none none "a"

/-- The column expression `b`. -/
def sampleColB : Expr := .colName none none "b"

/-- An empty SELECT core. -/
def sampleSel0 : SelectCore :=
  { selectExprs := [], groupBy := [], orderBy := [], having := none,
    isDistinct := false, limit := none }

/-- The SELECT core `SELECT a, b`. -/
def sampleSelAB : SelectCore :=
  { sampleSel0 with selectExprs := [.aliased sampleColA "", .aliased sampleColB ""] }

/-- A multi-shard route with an empty projection. -/
def sampleRoute0 : Route :=
  { select := .sel sampleSel0, eroute := { orderBy := [], truncateColumnCount := 0 },
    singleShard := false, tables := 1 }

/-- A multi-shard route selecting `a, b`. -/
def sampleRouteAB : Route :=
  { sampleRoute0 with select := .sel sampleSelAB }

/-- The query projection of `SELECT a, b`. -/
def sampleQPAB : QueryProjection :=
  { selectExprs := [⟨.aliased sampleColA "", false⟩, ⟨.aliased sampleColB "", false⟩],
    groupByExprs := [], orderExprs := [], hasAggr := false, hasStar := false,
    canPushDownSorting := false, projectionError := none,
    needsAggregationFlag := false, needsDistinctFlag := false }

/-- A planning context with no vindexes over `sampleSt`. -/
def sampleCtx : PlanningContext :=
  { semTable := sampleSt, exprHasUniqueVindex := fun _ => false,
    createQP := fun _ => .ok sampleQPAB }

/-- A fresh driver record for `SELECT a, b` (no query projection yet). -/
def sampleHpAB : HorizonPlanning :=
  { sel := sampleSelAB, qp := none, needsTruncation := false, vtgateGrouping := false }

/-- A driver record with truncation already required. -/
def sampleHpTrunc : HorizonPlanning :=
  { sampleHpAB with needsTruncation := true }

/-- The aggregate call count(distinct a). -/
def sampleCountDistinctA : Expr :=
  .funcExpr "count" true (.cons (.aliased sampleColA "") .nil)

/-- A non-column expression: 1 + 1. -/
def sampleOnePlusOne : Expr := .binary "+" (.intLit 1) (.intLit 1)

/-- The query projection of `SELECT count(distinct a)`. -/
def sampleQPCntD : QueryProjection :=
  { selectExprs := [⟨.aliased sampleCountDistinctA "", true⟩],
    groupByExprs := [], orderExprs := [], hasAggr := true, hasStar := false,
    canPushDownSorting := false, projectionError := none,
    needsAggregationFlag := true, needsDistinctFlag := false }

/-- The SELECT core `SELECT count(distinct a)`. -/
def sampleSelCntD : SelectCore :=
  { sampleSel0 with selectExprs := [.aliased sampleCountDistinctA ""] }

/-- A driver record for `SELECT count(distinct a)`. -/
def sampleHpCntD : HorizonPlanning :=
  { sel := sampleSelCntD, qp := some sampleQPCntD, needsTruncation := false,
    vtgateGrouping := false }

/-- The sample empty route after 1 + 1 AS x has been pushed once. -/
def sampleRouteX1 : Route :=
  let s : SelectCore := { sampleSel0 with selectExprs := [.aliased sampleOnePlusOne "x"] }
  { sampleRoute0 with select := .sel s }

/-- The sample empty route after 1 + 1 AS x has been pushed twice. -/
def sampleRouteX2 : Route :=
  let s : SelectCore :=
    { sampleSel0 with selectExprs := [.aliased sampleOnePlusOne "x", .aliased sampleOnePlusOne "x"] }
  { sampleRoute0 with select := .sel s }

/-- The sample driver record with the query projection installed. -/
def sampleHpABq : HorizonPlanning :=
  { sampleHpAB with qp := some sampleQPAB }

/-- A cross-shard join of the `a, b` route and the empty route, with no
output columns assigned yet. -/
def sampleJoinAB0 : LogicalPlan :=
  .joinGen4 (.routeGen4 sampleRouteAB) (.routeGen4 sampleRoute0) .normalJoin [] []

/-- The same join after the column `a` has been pushed: one output column
taken from the left child's offset 0. -/
def sampleJoinAB0A : LogicalPlan :=
  .joinGen4 (.routeGen4 sampleRouteAB) (.routeGen4 sampleRoute0) .normalJoin [-1] []

/-- The aggregate call count(a). -/
def sampleCountA : Expr :=
  .funcExpr "count" false (.cons (.aliased sampleColA "") .nil)

/-- The query projection of `SELECT count(a)` with sorting push-down
disabled. -/
def sampleQPCntA : QueryProjection :=
  { selectExprs := [⟨.aliased sampleCountA "", true⟩],
    groupByExprs := [], orderExprs := [], hasAggr := true, hasStar := false,
    canPushDownSorting := false, projectionError := none,
    needsAggregationFlag := true, needsDistinctFlag := false }

/-- The SELECT core `SELECT count(a)`. -/
def sampleSelCntA : SelectCore :=
  { sampleSel0 with selectExprs := [.aliased sampleCountA ""] }

/-- A driver record for `SELECT count(a)`. -/
def sampleHpCntA : HorizonPlanning :=
  { sel := sampleSelCntA, qp := some sampleQPCntA, needsTruncation := false,
    vtgateGrouping := false }

/-- The `a, b` route after the unary expression -a has been pushed. -/
def sampleRouteABneg3 : Route :=
  let s : SelectCore :=
    { sampleSel0 with
        selectExprs := [.aliased sampleColA "", .aliased sampleColB "",
          .aliased (.unary "-" sampleColA) ""] }
  { sampleRoute0 with select := .sel s }

/-- The `a, b` route after -a and weight_string(a) have been pushed. -/
def sampleRouteABneg : Route :=
  let s : SelectCore :=
    { sampleSel0 with
        selectExprs := [.aliased sampleColA "", .aliased sampleColB "",
          .aliased (.unary "-" sampleColA) "", .aliased (weightStringFor sampleColA) ""] }
  { sampleRoute0 with select := .sel s }

/-- The `a, b` route after count(a) has been pushed into its SELECT. -/
def sampleRouteABCnt : Route :=
  let s : SelectCore :=
    { sampleSel0 with
        selectExprs := [.aliased sampleColA "", .aliased sampleColB "", .aliased sampleCountA ""] }
  { sampleRoute0 with select := .sel s }

/-- The ordered-aggregate payload recorded while pushing count(a). -/
def sampleEaCntA : EOrderedAggregate :=
  { preProcess := false,
    aggregates := [{ opcode := .count, col := 2, aliasName := "count(a)",
                     expr := sampleCountA, wAssigned := false, wCol := 0 }],
    groupByKeys := [], truncateColumnCount := 0 }

/-! ## Helper lemmas -/

instance {e a : Type} [DecidableEq e] [DecidableEq a] : DecidableEq (Except e a) := fun x y =>
  match x, y with
  | .ok u, .ok v => if h : u = v then .isTrue (by rw [h]) else .isFalse (by simp [h])
  | .error u, .error v => if h : u = v then .isTrue (by rw [h]) else .isFalse (by simp [h])
  | .ok _, .error _ => .isFalse (by simp)
  | .error _, .ok _ => .isFalse (by simp)

theorem pushProjection_succ_route (n : Nat) (expr : AliasedExpr) (r : Route) (st : SemTable)
    (inner reuse hasAgg : Bool) :
    pushProjection (n + 1) expr (.routeGen4 r) st inner reuse hasAgg =
      pushProjOnRoute expr r st inner reuse := by
  rw [pushProjection.eq_def]

theorem getFirstSelect_updateFirstSelect (f : SelectCore → SelectCore) (ss : SelectStatement) :
    getFirstSelect (updateFirstSelect f ss) = f (getFirstSelect ss) := by
  induction ss with
  | sel s => rfl
  | union l r ob d ihl ihr => simpa [updateFirstSelect, getFirstSelect] using ihl

/-! ## C10: truncation is a no-op when truncation was never required -/

/-- C10: if needs-truncation was never set, the truncation step succeeds on
every plan variant and returns the plan unchanged — including the variants
(limit, distinct, concatenate, …) that would fail with an internal error
when truncation is needed. -/
theorem truncate_noop_when_not_needed (hp : HorizonPlanning) (plan : LogicalPlan)
    (h : hp.needsTruncation = false) : truncateColumnsIfNeeded hp plan = .ok plan := by
  unfold truncateColumnsIfNeeded
  simp [h]

/-- Witness for C10 at a limit node (a variant the needed-truncation path
rejects). -/
theorem truncate_noop_when_not_needed_witness :
    sampleHpAB.needsTruncation = false ∧
      truncateColumnsIfNeeded sampleHpAB (.limitPlan (.routeGen4 sampleRouteAB)) =
        .ok (.limitPlan (.routeGen4 sampleRouteAB)) :=
  ⟨rfl, truncate_noop_when_not_needed sampleHpAB (.limitPlan (.routeGen4 sampleRouteAB)) rfl⟩

/-! ## C3: the truncation step, when truncation is required -/

/-- C3: with needs-truncation set, the truncation step sets the truncate
column count of a route, ordered-aggregate or memory-sort root to exactly
S.GetColumnCount(); recurses through pullout-subquery and filter; succeeds
without change on every join; and fails with an internal error on every
other variant. -/
theorem truncate_spec (hp : HorizonPlanning) (h : hp.needsTruncation = true) :
    (∀ r, truncateColumnsIfNeeded hp (.routeGen4 r) =
      .ok (.routeGen4 { r with eroute := { r.eroute with truncateColumnCount := hp.sel.getColumnCount } })) ∧
    (∀ l r op cols vars, truncateColumnsIfNeeded hp (.joinGen4 l r op cols vars) =
      .ok (.joinGen4 l r op cols vars)) ∧
    (∀ l r op cols, truncateColumnsIfNeeded hp (.hashJoin l r op cols) =
      .ok (.hashJoin l r op cols)) ∧
    (∀ l r cols, truncateColumnsIfNeeded hp (.semiJoin l r cols) =
      .ok (.semiJoin l r cols)) ∧
    (∀ i e, truncateColumnsIfNeeded hp (.orderedAggregate i e) =
      .ok (.orderedAggregate i { e with truncateColumnCount := hp.sel.getColumnCount })) ∧
    (∀ i e, truncateColumnsIfNeeded hp (.memorySort i e) =
      .ok (.memorySort i { e with truncateColumnCount := hp.sel.getColumnCount })) ∧
    (∀ sq u, truncateColumnsIfNeeded hp (.pulloutSubquery sq u) =
      (truncateColumnsIfNeeded hp u).map (fun u' => .pulloutSubquery sq u')) ∧
    (∀ i p, truncateColumnsIfNeeded hp (.filterPlan i p) =
      (truncateColumnsIfNeeded hp i).map (fun i' => .filterPlan i' p)) ∧
    (∀ i cols, truncateColumnsIfNeeded hp (.simpleProjection i cols) =
      .error ⟨.internal, "plan type not known for column truncation: *planbuilder.simpleProjection"⟩) ∧
    (∀ cols, truncateColumnsIfNeeded hp (.vindexFunc cols) =
      .error ⟨.internal, "plan type not known for column truncation: *planbuilder.vindexFunc"⟩) ∧
    (∀ i, truncateColumnsIfNeeded hp (.limitPlan i) =
      .error ⟨.internal, "plan type not known for column truncation: *planbuilder.limit"⟩) ∧
    (∀ i, truncateColumnsIfNeeded hp (.distinctPlan i) =
      .error ⟨.internal, "plan type not known for column truncation: *planbuilder.distinct"⟩) ∧
    (∀ f rest, truncateColumnsIfNeeded hp (.concatenateGen4 f rest) =
      .error ⟨.internal, "plan type not known for column truncation: *planbuilder.concatenateGen4"⟩) := by
  refine ⟨?_, ?_, ?_, ?_, ?_, ?_, ?_, ?_, ?_, ?_, ?_, ?_, ?_⟩
  case refine_7 =>
    intro sq u
    cases htr : truncateColumnsIfNeeded hp u with
    | error e =>
      conv_lhs => rw [truncateColumnsIfNeeded.eq_def]
      simp [h, htr, Except.map]
    | ok u' =>
      conv_lhs => rw [truncateColumnsIfNeeded.eq_def]
      simp [h, htr, Except.map]
  case refine_8 =>
    intro i p
    cases htr : truncateColumnsIfNeeded hp i with
    | error e =>
      conv_lhs => rw [truncateColumnsIfNeeded.eq_def]
      simp [h, htr, Except.map]
    | ok i' =>
      conv_lhs => rw [truncateColumnsIfNeeded.eq_def]
      simp [h, htr, Except.map]
  all_goals
    intros
    rw [truncateColumnsIfNeeded.eq_def]
    simp [h, planTypeName]

/-- Witness for C3 at a memory-sort root with column count 2. -/
theorem truncate_spec_witness :
    sampleHpTrunc.needsTruncation = true ∧
      truncateColumnsIfNeeded sampleHpTrunc
          (.memorySort (.routeGen4 sampleRouteAB) { orderBy := [], truncateColumnCount := 0 }) =
        .ok (.memorySort (.routeGen4 sampleRouteAB) { orderBy := [], truncateColumnCount := 2 }) :=
  ⟨rfl, by
    have h := (truncate_spec sampleHpTrunc rfl).2.2.2.2.2.1 (.routeGen4 sampleRouteAB)
      { orderBy := [], truncateColumnCount := 0 }
    simpa using h⟩

/-! ## C1: the single-shard shortcut -/

/-- C1: on a single-shard route, planHorizon installs the full SELECT into
the route's SQL and returns the very same route operator (same engine
payload, same tables, same shard form; only the embedded statement
changes); the driver state is untouched — no query projection is built,
no aggregation, order-by or distinct planning runs, and no gateway
operator is inserted. -/
theorem planHorizon_singleShard_shortcut (fuel : Nat) (ctx : PlanningContext)
    (hp : HorizonPlanning) (r : Route) (h : r.singleShard = true) :
    planHorizon fuel ctx hp (.routeGen4 r) =
      .ok (ctx, hp, .routeGen4 (planSingleShardRoutePlan hp.sel r)) ∧
    (planSingleShardRoutePlan hp.sel r).eroute = r.eroute ∧
    (planSingleShardRoutePlan hp.sel r).singleShard = r.singleShard ∧
    (planSingleShardRoutePlan hp.sel r).tables = r.tables ∧
    (getFirstSelect (planSingleShardRoutePlan hp.sel r).select).selectExprs = hp.sel.selectExprs ∧
    (getFirstSelect (planSingleShardRoutePlan hp.sel r).select).groupBy = hp.sel.groupBy ∧
    (getFirstSelect (planSingleShardRoutePlan hp.sel r).select).orderBy = hp.sel.orderBy ∧
    (getFirstSelect (planSingleShardRoutePlan hp.sel r).select).having = hp.sel.having ∧
    (getFirstSelect (planSingleShardRoutePlan hp.sel r).select).isDistinct = hp.sel.isDistinct ∧
    (getFirstSelect (planSingleShardRoutePlan hp.sel r).select).limit = hp.sel.limit := by
  refine ⟨?_, rfl, rfl, rfl, ?_, ?_, ?_, ?_, ?_, ?_⟩
  · unfold planHorizon
    simp [h]
  all_goals
    simp [planSingleShardRoutePlan, getFirstSelect_updateFirstSelect]

/-- Witness for C1 on a concrete single-shard route. -/
theorem planHorizon_singleShard_shortcut_witness :
    ({ sampleRouteAB with singleShard := true } : Route).singleShard = true ∧
      planHorizon 5 sampleCtx sampleHpAB (.routeGen4 { sampleRouteAB with singleShard := true }) =
        .ok (sampleCtx, sampleHpAB,
          .routeGen4 (planSingleShardRoutePlan sampleHpAB.sel { sampleRouteAB with singleShard := true })) :=
  ⟨rfl, (planHorizon_singleShard_shortcut 5 sampleCtx sampleHpAB
    { sampleRouteAB with singleShard := true } rfl).1⟩

/-! ## C4: cross-shard left join and column expressions

The claim states the error message as
"unimplemented: cross-shard left join and column expressions"; the code
raises the UNIMPLEMENTED-coded error with message
"unsupported: cross-shard left join and column expressions". -/

/-- Counterexample for C4: at a concrete non-column expression whose
eval-engine conversion is unimplemented, pushing on the non-preserved side
fails with the message "unsupported: cross-shard left join and column
expressions" — not "unimplemented: cross-shard left join and column
expressions" as the claim states. -/
theorem pushProjection_crossShardLeftJoin_cex :
    pushProjection 1 ⟨sampleOnePlusOne, ""⟩ (.routeGen4 sampleRouteAB) sampleStUnimpl
        false true false =
      .error ⟨.unimplemented, "unsupported: cross-shard left join and column expressions"⟩ ∧
    ("unsupported: cross-shard left join and column expressions" : String) ≠
      "unimplemented: cross-shard left join and column expressions" := by
  exact ⟨by decide, by decide⟩

/-- C4 (amended): when eval-engine conversion of a non-column expression
fails with an unimplemented error, pushing on the non-preserved side
(inner = false) fails with the UNIMPLEMENTED error whose message is
"unsupported: cross-shard left join and column expressions", while on the
preserved side (inner = true) the push continues and the expression is
appended to the route's SELECT. -/
theorem pushProjection_crossShardLeftJoin (fuel : Nat) (expr : AliasedExpr) (r : Route)
    (st : SemTable) (hasAgg : Bool) (e : Err)
    (h₁ : expr.expr.isColName = false)
    (h₂ : st.convertErr expr.expr = some e)
    (h₃ : e.code = .unimplemented) :
    pushProjection (fuel + 1) expr (.routeGen4 r) st false false hasAgg =
      .error ⟨.unimplemented, "unsupported: cross-shard left join and column expressions"⟩ ∧
    (∀ s expr', r.select = .sel s →
      rewriteProjectionOfDerivedTable { expr with expr := removeKeyspaceFromColName expr.expr } st = .ok expr' →
      pushProjection (fuel + 1) expr (.routeGen4 r) st true false hasAgg =
        .ok (s.selectExprs.length, true,
          .routeGen4 { r with select := .sel { s with selectExprs := s.selectExprs ++ [expr'.toItem] } })) := by
  constructor
  · rw [pushProjection_succ_route]
    unfold pushProjOnRoute routePreCheck
    simp [h₁, h₂, h₃]
  · intro s expr' hsel hrw
    rw [pushProjection_succ_route]
    unfold pushProjOnRoute routePreCheck
    simp [h₁, h₂, h₃, hsel, hrw]

/-- Witness for C4 (amended) at the expression 1 + 1. -/
theorem pushProjection_crossShardLeftJoin_witness :
    (Expr.isColName sampleOnePlusOne = false ∧
      sampleStUnimpl.convertErr sampleOnePlusOne =
        some ⟨.unimplemented, "expr conversion not supported"⟩) ∧
    pushProjection 1 ⟨sampleOnePlusOne, ""⟩ (.routeGen4 sampleRouteAB) sampleStUnimpl
        true false false =
      .ok (2, true,
        .routeGen4
          { sampleRouteAB with
            select := .sel
              { sampleSelAB with
                selectExprs := sampleSelAB.selectExprs ++ [.aliased sampleOnePlusOne ""] } }) := by
  refine ⟨⟨rfl, rfl⟩, ?_⟩
  have h := (pushProjection_crossShardLeftJoin 0 ⟨sampleOnePlusOne, ""⟩ sampleRouteAB
    sampleStUnimpl false ⟨.unimplemented, "expr conversion not supported"⟩ rfl rfl rfl).2
    sampleSelAB ⟨sampleOnePlusOne, ""⟩ rfl rfl
  simpa using h

/-! ## C2: the distinct-aggregate rewrite -/

/-- C2: for COUNT(DISTINCT c) or SUM(DISTINCT c) on the ordered-aggregate
path, with a multi-shard route input and no unique vindex on c, the
planner reports distinct handling with the inner argument, and
createPushExprAndAlias (a) switches the opcode to the distinct variant,
(b) appends a synthetic group-by on the inner argument whose
distinct-aggr-index is the number of aggregates recorded so far plus one,
(c) sets PreProcess on the aggregate payload, and (d) marks truncation as
required. -/
theorem distinct_aggregate_rewrite (ctx : PlanningContext) (hp : HorizonPlanning)
    (qp : QueryProjection) (eaggr : EOrderedAggregate) (e : QPSelectExpr)
    (fname : String) (rest : ArgList) (c : Expr) (a ealias : String) (r : Route)
    (opcode : AggregateOpcode)
    (hqp : hp.qp = some qp)
    (hcol : e.col = .aliased (.funcExpr fname true (.cons (.aliased c a) rest)) ealias)
    (hop : opcode = .count ∨ opcode = .sum)
    (hvx : ctx.exprHasUniqueVindex c = false)
    (hss : r.singleShard = false) :
    needDistinctHandling ctx (.funcExpr fname true (.cons (.aliased c a) rest)) opcode
        (.routeGen4 r) = .ok (true, some ⟨c, a⟩) ∧
    createPushExprAndAlias hp e true (some ⟨c, a⟩) opcode eaggr =
      (some ⟨c, a⟩,
       (if ealias == "" then exprString (.funcExpr fname true (.cons (.aliased c a) rest)) else ealias),
       (if opcode = .count then .countDistinct else .sumDistinct),
       { hp with needsTruncation := true,
                 qp := some { qp with groupByExprs := qp.groupByExprs ++
                   [{ inner := c, weightStrExpr := some c,
                      distinctAggrIndex := eaggr.aggregates.length + 1 }] } },
       { eaggr with preProcess := true }) := by
  constructor
  · unfold needDistinctHandling
    rcases hop with h | h <;> subst h <;> simp [hvx]
  · unfold createPushExprAndAlias
    rcases hop with h | h <;> subst h <;>
      simp [hcol, SelectExprItem.asAliased, HorizonPlanning.haveToTruncate,
        HorizonPlanning.getQP, hqp]

/-- Witness for C2 at count(distinct a) on the sample multi-shard route. -/
theorem distinct_aggregate_rewrite_witness :
    needDistinctHandling sampleCtx sampleCountDistinctA .count (.routeGen4 sampleRouteAB) =
        .ok (true, some ⟨sampleColA, ""⟩) ∧
      (createPushExprAndAlias sampleHpCntD ⟨.aliased sampleCountDistinctA "", true⟩ true
          (some ⟨sampleColA, ""⟩) .count emptyEAggr).2.2.1 = .countDistinct := by
  have h := distinct_aggregate_rewrite sampleCtx sampleHpCntD sampleQPCntD emptyEAggr
    ⟨.aliased sampleCountDistinctA "", true⟩ "count" .nil sampleColA "" ""
    sampleRouteAB .count rfl rfl (Or.inl rfl) rfl rfl
  exact ⟨h.1, by simp [h.2]⟩

/-! ## C7: weight-string synthesis in wrapAndPushExpr -/

/-- C7: wrapAndPushExpr returns weight-string offset -1 and pushes no
weight_string projection when the weight-string expression is nil, or
when the pushed expression unwraps to a column (the expression itself, or
the operand of a unary wrapper) whose semantic type is numeric; a non-nil
weight-string expression whose pushed expression is neither a column nor
a unary expression wrapping one fails with "unsupported: in scatter
query: complex order by expression"; otherwise
weight_string(weightStrExpr) is pushed with reuse and the added flag is
the OR of the two pushes' added flags. -/
theorem wrapAndPushExpr_spec (fuel : Nat) (st : SemTable) :
    (∀ expr plan off add plan₁,
      pushProjection fuel ⟨expr, ""⟩ plan st true true false = .ok (off, add, plan₁) →
      wrapAndPushExpr fuel expr none plan st = .ok (off, -1, add, plan₁)) ∧
    (∀ expr exprU w plan off add plan₁,
      unwrapColExpr expr = some exprU →
      st.typeIsNumeric exprU = some true →
      pushProjection fuel ⟨expr, ""⟩ plan st true true false = .ok (off, add, plan₁) →
      wrapAndPushExpr fuel expr (some w) plan st = .ok (off, -1, add, plan₁)) ∧
    (∀ expr w plan res,
      unwrapColExpr expr = none →
      pushProjection fuel ⟨expr, ""⟩ plan st true true false = .ok res →
      wrapAndPushExpr fuel expr (some w) plan st =
        .error ⟨.unimplemented,
          "unsupported: in scatter query: complex order by expression" ++ (": " ++ exprString expr)⟩) ∧
    (∀ expr exprU w plan off add plan₁ wsOff wAdd plan₂,
      unwrapColExpr expr = some exprU →
      st.typeIsNumeric exprU ≠ some true →
      pushProjection fuel ⟨expr, ""⟩ plan st true true false = .ok (off, add, plan₁) →
      pushProjection fuel ⟨weightStringFor w, ""⟩ plan₁ st true true false = .ok (wsOff, wAdd, plan₂) →
      wrapAndPushExpr fuel expr (some w) plan st = .ok (off, Int.ofNat wsOff, add || wAdd, plan₂)) := by
  refine ⟨?_, ?_, ?_, ?_⟩
  · intro expr plan off add plan₁ hpush
    unfold wrapAndPushExpr
    simp [hpush]
  · intro expr exprU w plan off add plan₁ hunwrap htype hpush
    unfold wrapAndPushExpr
    simp [hpush, hunwrap, htype]
  · intro expr w plan res hunwrap hpush
    rw [← String.append_assoc]
    have hcat : ("unsupported: in scatter query: complex order by expression" ++ ": " : String) =
        "unsupported: in scatter query: complex order by expression: " := rfl
    rw [hcat]
    unfold wrapAndPushExpr
    rcases res with ⟨off, add, plan₁⟩
    rw [hpush]
    simp [hunwrap]
  · intro expr exprU w plan off add plan₁ wsOff wAdd plan₂ hunwrap htype hpush hws
    unfold wrapAndPushExpr
    have hneed : (match st.typeIsNumeric exprU with
        | some isNum => !isNum
        | none => true) = true := by
      cases h : st.typeIsNumeric exprU with
      | none => rfl
      | some b => cases b with
        | true => exact absurd h htype
        | false => rfl
    simp [hpush, hunwrap, hneed, hws]

/-- Witnesses for C7: a bare numeric column under a nil weight-string
expression, and a unary expression wrapping a textual column, for which a
weight_string projection is pushed. -/
theorem wrapAndPushExpr_spec_witness :
    wrapAndPushExpr 1 sampleColA none (.routeGen4 sampleRouteAB) sampleSt =
      .ok (0, -1, false, .routeGen4 sampleRouteAB) ∧
    wrapAndPushExpr 1 (.unary "-" sampleColA) (some sampleColA) (.routeGen4 sampleRouteAB)
        sampleStText =
      .ok (2, 3, true, .routeGen4 sampleRouteABneg) :=
  ⟨(wrapAndPushExpr_spec 1 sampleSt).1 sampleColA (.routeGen4 sampleRouteAB) 0 false
      (.routeGen4 sampleRouteAB) (by decide),
    (wrapAndPushExpr_spec 1 sampleStText).2.2.2 (.unary "-" sampleColA) sampleColA sampleColA
      (.routeGen4 sampleRouteAB) 2 true (.routeGen4 sampleRouteABneg3) 3 true
      (.routeGen4 sampleRouteABneg) (by decide) (by decide) (by decide) (by decide)⟩

/-! ## C6: projection reuse on a route

The claim asserts idempotence for every aliased expression; it fails for
an aliased non-column expression, because the reuse rule only matches an
aliased existing item against an incoming bare column reference. -/

mutual
theorem exprEqual_refl : ∀ e, exprEqual e e = true
  | .colName ks t n => by simp [exprEqual, ciEqual]
  | .nullLit => rfl
  | .intLit n => by simp [exprEqual]
  | .binary o l r => by simp [exprEqual, exprEqual_refl l, exprEqual_refl r]
  | .unary o a => by simp [exprEqual, exprEqual_refl a]
  | .funcExpr n d a => by simp [exprEqual, ciEqual, argsEqual_refl a]

theorem argsEqual_refl : ∀ a, argsEqual a a = true
  | .nil => rfl
  | .cons h t => by simp [argsEqual, itemEqual_refl h, argsEqual_refl t]

theorem itemEqual_refl : ∀ i, itemEqual i i = true
  | .aliased e a => by simp [itemEqual, exprEqual_refl e, ciEqual]
  | .star => rfl
end

theorem checkExistsAux_append (d : TableSet) (expr : AliasedExpr) (st : SemTable)
    (item : SelectExprItem) :
    ∀ (l : List SelectExprItem) (i : Nat),
      checkExistsAux d expr st (l ++ [item]) i =
        (if checkExistsAux d expr st l i = -1 then
          checkExistsAux d expr st [item] (i + l.length)
        else checkExistsAux d expr st l i) := by
  intro l
  induction l with
  | nil =>
    intro i
    simp [checkExistsAux]
  | cons x rest ih =>
    intro i
    rw [List.cons_append, checkExistsAux, checkExistsAux]
    by_cases hm : itemMatchesForReuse d expr st x = true
    · simp [hm]
    · rw [if_neg hm, if_neg hm, ih (i + 1)]
      have harith : i + 1 + rest.length = i + (rest.length + 1) := by omega
      simp [harith]

/-- An unaliased expression always matches the select item built from it. -/
theorem itemMatchesForReuse_self (expr : AliasedExpr) (st : SemTable)
    (halias : expr.asName = "") :
    itemMatchesForReuse (st.recursiveDeps expr.expr) expr st expr.toItem = true := by
  rcases expr with ⟨e, a⟩
  simp only at halias
  subst halias
  simp only [AliasedExpr.toItem, itemMatchesForReuse, beq_self_eq_true, Bool.true_and,
    if_pos rfl]
  cases e <;> simp [exprEqual_refl, ciEqual]

/-- Counterexample for C6: pushing the aliased non-column expression
1 + 1 AS x twice onto a route with reuseCol = true is not idempotent —
the second call returns offset 1 (not 0), reports added = true, and grows
the embedded SELECT to two copies. -/
theorem pushProjection_reuse_cex :
    pushProjection 1 ⟨sampleOnePlusOne, "x"⟩ (.routeGen4 sampleRoute0) sampleSt true true false =
      .ok (0, true, .routeGen4 sampleRouteX1) ∧
    pushProjection 1 ⟨sampleOnePlusOne, "x"⟩ (.routeGen4 sampleRouteX1) sampleSt true true false =
      .ok (1, true, .routeGen4 sampleRouteX2) ∧
    (1 : Nat) ≠ 0 := by
  exact ⟨by decide, by decide, by decide⟩

/-- C6 (amended): pushing the same unaliased expression twice onto a route
with reuseCol = true — with keyspace stripping and derived-table rewriting
leaving it unchanged — is idempotent: the second call returns the first
call's offset, reports added = false, and returns the first call's plan
unchanged (in particular the embedded SELECT keeps its length). -/
theorem pushProjection_route_reuse_idempotent (fuel : Nat) (expr : AliasedExpr) (r : Route)
    (st : SemTable) (inner hasAgg : Bool) (off : Nat) (add : Bool) (plan₁ : LogicalPlan)
    (halias : expr.asName = "")
    (hstrip : removeKeyspaceFromColName expr.expr = expr.expr)
    (hrw : rewriteProjectionOfDerivedTable expr st = .ok expr)
    (h1 : pushProjection (fuel + 1) expr (.routeGen4 r) st inner true hasAgg = .ok (off, add, plan₁)) :
    pushProjection (fuel + 1) expr plan₁ st inner true hasAgg = .ok (off, false, plan₁) := by
  have hexprEta : ({ expr with expr := removeKeyspaceFromColName expr.expr } : AliasedExpr) = expr := by
    rw [hstrip]
  rw [pushProjection_succ_route] at h1
  cases hpc : routePreCheck expr st inner with
  | error e =>
    rw [pushProjOnRoute, hpc] at h1
    simp at h1
  | ok u =>
    rw [pushProjOnRoute, hpc] at h1
    simp only [if_true] at h1
    by_cases hf : checkIfAlreadyExists expr r.select st = -1
    · -- first call appended
      rw [hf] at h1
      simp only [bne_self_eq_false, Bool.false_eq_true, if_false] at h1
      rw [hexprEta] at h1
      cases hsel : r.select with
      | union l rr ob d =>
        rw [hsel] at h1
        simp at h1
      | sel s =>
        rw [hsel] at h1
        simp only [hrw] at h1
        simp only [Except.ok.injEq, Prod.mk.injEq] at h1
        obtain ⟨hoff, hadd, hplan⟩ := h1
        subst hoff
        subst hplan
        rw [pushProjection_succ_route, pushProjOnRoute, hpc]
        simp only [if_true]
        have hfound2 : checkIfAlreadyExists expr
            (SelectStatement.sel { s with selectExprs := s.selectExprs ++ [expr.toItem] }) st =
            Int.ofNat s.selectExprs.length := by
          unfold checkIfAlreadyExists at hf ⊢
          rw [hsel] at hf
          simp only [getFirstSelect] at hf ⊢
          rw [checkExistsAux_append, if_pos hf]
          rw [checkExistsAux, if_pos (itemMatchesForReuse_self expr st halias)]
          simp
        simp only [hfound2]
        have hcond : (Int.ofNat s.selectExprs.length != -1) = true := by
          simp [bne_iff_ne]
        rw [if_pos hcond]
        simp
    · -- first call reused an existing column
      have hcond : ((checkIfAlreadyExists expr r.select st) != -1) = true := by
        simpa [bne_iff_ne] using hf
      rw [if_pos hcond] at h1
      simp only [Except.ok.injEq, Prod.mk.injEq] at h1
      obtain ⟨hoff, hadd, hplan⟩ := h1
      subst hoff
      subst hplan
      rw [pushProjection_succ_route, pushProjOnRoute, hpc]
      simp only [if_true]
      rw [if_pos hcond]

/-- Witness for C6 (amended): pushing the bare column `a` twice onto the
sample route. -/
theorem pushProjection_route_reuse_idempotent_witness :
    pushProjection 1 ⟨sampleColA, ""⟩ (.routeGen4 sampleRouteAB) sampleSt true true false =
        .ok (0, false, .routeGen4 sampleRouteAB) ∧
      pushProjection 1 ⟨sampleColA, ""⟩ (.routeGen4 sampleRouteAB) sampleSt true true false =
        .ok (0, false, .routeGen4 sampleRouteAB) :=
  ⟨by decide,
   pushProjection_route_reuse_idempotent 0 ⟨sampleColA, ""⟩ sampleRouteAB sampleSt true false
     0 false (.routeGen4 sampleRouteAB) rfl rfl (by decide) (by decide)⟩

/-! ## C8: ambiguous aliases and group-by keys in addDistinct -/

theorem ambiguousScan_of_collision (index : Nat) (col : String) :
    ∀ (l : List QPSelectExpr) (k j : Nat) (e : QPSelectExpr),
      l.get? j = some e → k + j ≠ index → collidesWith col e = true →
      ambiguousScan index col l k = true := by
  intro l
  induction l with
  | nil =>
    intro k j e hget
    simp at hget
  | cons x rest ih =>
    intro k j e hget hne hcol
    cases j with
    | zero =>
      simp at hget
      subst hget
      rw [ambiguousScan]
      rw [if_neg (by simpa using hne)]
      rw [if_pos hcol]
    | succ j' =>
      simp only [List.get?_cons_succ] at hget
      have hrec := ih (k + 1) j' e hget (by omega) hcol
      rw [ambiguousScan, hrec]
      split <;> simp [hcol, hrec]

theorem addDistinctLoop_keys (fuel : Nat) (all : List QPSelectExpr) :
    ∀ (rest : List QPSelectExpr) (idx : Nat) (ctx : PlanningContext)
      (hp : HorizonPlanning) (plan : LogicalPlan) (keys : List GroupByParams)
      (orders : List OrderBy)
      (res : PlanningContext × HorizonPlanning × LogicalPlan × List GroupByParams × List OrderBy),
      addDistinctLoop fuel all rest idx ctx hp plan keys orders = .ok res →
      keys.length = idx → (∀ m k, keys.get? m = some k → k.keyCol = m) →
      res.2.2.2.1.length = idx + rest.length ∧
        (∀ m k, res.2.2.2.1.get? m = some k → k.keyCol = m) := by
  intro rest
  induction rest with
  | nil =>
    intro idx ctx hp plan keys orders res hok hlen hinv
    rw [addDistinctLoop] at hok
    injection hok with hok
    subst hok
    exact ⟨by simpa using hlen, hinv⟩
  | cons e rest' ih =>
    intro idx ctx hp plan keys orders res hok hlen hinv
    rw [addDistinctLoop] at hok
    cases hae : e.getAliasedExpr with
    | error err => rw [hae] at hok; simp at hok
    | ok aliasExpr =>
      rw [hae] at hok
      simp only [] at hok
      split at hok
      · simp at hok
      · split at hok
        · simp at hok
        · rename_i wres heq
          have hnext := ih (idx + 1) _ _ _ _ _ res hok (by simp [hlen]) ?_
          · obtain ⟨hl, hi⟩ := hnext
            exact ⟨by simp only [List.length_cons]; omega, hi⟩
          · intro m k hget
            by_cases hm : m < keys.length
            · rw [List.get?_append hm] at hget
              exact hinv m k hget
            · have hm' : keys.length ≤ m := by omega
              rw [List.get?_append_right hm'] at hget
              cases hmm : m - keys.length with
              | zero =>
                rw [hmm] at hget
                simp at hget
                subst hget
                simp only []
                omega
              | succ mm =>
                rw [hmm] at hget
                simp at hget

/-- C8: in addDistinct, (a) a select item whose alias is reported
ambiguous makes the loop fail with "generating order by clause: ambiguous
symbol reference"; (b) a non-empty alias equal (case-insensitively) to
another item's alias or bare column name is reported ambiguous; and (c)
when addDistinct succeeds, the new ordered aggregate carries no aggregates
and exactly one group-by key per select item, whose KeyCol is the item's
index in the select list. -/
theorem addDistinct_spec (fuel : Nat) (ctx : PlanningContext) (hp : HorizonPlanning)
    (plan : LogicalPlan) :
    (∀ (i : Nat) (e : QPSelectExpr) (rest : List QPSelectExpr) (ctx₁ : PlanningContext)
        (hp₁ : HorizonPlanning) (plan₁ : LogicalPlan) (keys : List GroupByParams)
        (orders : List OrderBy) (ae : AliasedExpr),
      e.getAliasedExpr = .ok ae →
      isAmbiguousOrderBy i ae.asName (hp.getQP.selectExprs) = true →
      addDistinctLoop fuel hp.getQP.selectExprs (e :: rest) i ctx₁ hp₁ plan₁ keys orders =
        .error ⟨.unimplemented,
          "generating order by clause: ambiguous symbol reference: " ++ ae.asName⟩) ∧
    (∀ (i j : Nat) (col : String) (e' : QPSelectExpr),
      col ≠ "" → hp.getQP.selectExprs.get? j = some e' → j ≠ i →
      collidesWith col e' = true →
      isAmbiguousOrderBy i col hp.getQP.selectExprs = true) ∧
    (∀ ctx' hp' plan', addDistinct fuel ctx hp plan = .ok (ctx', hp', plan') →
      ∃ inner e, plan' = .orderedAggregate inner e ∧ e.aggregates = [] ∧
        e.groupByKeys.length = hp.getQP.selectExprs.length ∧
        ∀ m k, e.groupByKeys.get? m = some k → k.keyCol = m) := by
  refine ⟨?_, ?_, ?_⟩
  · intro i e rest ctx₁ hp₁ plan₁ keys orders ae hae hamb
    rw [addDistinctLoop, hae]
    simp only [hamb, if_true]
  · intro i j col e' hcol hget hne hcollide
    unfold isAmbiguousOrderBy
    rw [if_neg (by simpa using hcol)]
    exact ambiguousScan_of_collision i col _ 0 j e' hget (by simpa using hne) hcollide
  · intro ctx' hp' plan' hok
    unfold addDistinct at hok
    cases hloop : addDistinctLoop fuel hp.getQP.selectExprs hp.getQP.selectExprs 0 ctx hp plan [] [] with
    | error e => rw [hloop] at hok; simp at hok
    | ok res =>
      rw [hloop] at hok
      rcases res with ⟨ctxl, hpl, planl, keys, orders⟩
      simp only [] at hok
      cases hord : planOrderBy fuel ctxl hpl orders planl with
      | error e => rw [hord] at hok; simp at hok
      | ok res2 =>
        rw [hord] at hok
        rcases res2 with ⟨hpo, innerPlan⟩
        simp only [Except.ok.injEq, Prod.mk.injEq] at hok
        obtain ⟨_, _, hplan⟩ := hok
        have hkeys := addDistinctLoop_keys fuel hp.getQP.selectExprs hp.getQP.selectExprs 0
          ctx hp plan [] [] _ hloop rfl (by intro m k h; simp at h)
        refine ⟨innerPlan, _, hplan.symm, rfl, ?_, hkeys.2⟩
        simpa using hkeys.1

/-- Witness for C8 part (c): addDistinct on a concrete two-column route
yields an ordered aggregate whose two group-by keys have KeyCol 0 and 1. -/
theorem addDistinct_spec_witness :
    ∃ val, addDistinct 5 sampleCtx sampleHpABq (.routeGen4 sampleRouteAB) = .ok val ∧
      ∃ inner e, val.2.2 = .orderedAggregate inner e ∧ e.aggregates = [] ∧
        e.groupByKeys.length = 2 ∧ ∀ m k, e.groupByKeys.get? m = some k → k.keyCol = m := by
  cases hres : addDistinct 5 sampleCtx sampleHpABq (.routeGen4 sampleRouteAB) with
  | error err =>
    have hplan : (addDistinct 5 sampleCtx sampleHpABq (.routeGen4 sampleRouteAB)).toOption.map
        (fun x => width x.2.2) = some 2 := by decide
    rw [hres] at hplan
    simp [Except.toOption] at hplan
  | ok val =>
    refine ⟨val, rfl, ?_⟩
    have h := (addDistinct_spec 5 sampleCtx sampleHpABq (.routeGen4 sampleRouteAB)).2.2
      val.1 val.2.1 val.2.2 (by rw [hres])
    simpa using h

/-! ## C5: the column-addressing invariant of projection push-down -/

theorem colEntryOK_mono {wl wr wl' wr' : Nat} {c : Int} (h : colEntryOK wl wr c = true)
    (h1 : wl ≤ wl') (h2 : wr ≤ wr') : colEntryOK wl' wr' c = true := by
  unfold colEntryOK at h ⊢
  split at h <;> split <;> simp_all <;> omega

theorem colsAll_mono {cols : List Int} {wl wr wl' wr' : Nat}
    (h : cols.all (colEntryOK wl wr) = true) (h1 : wl ≤ wl') (h2 : wr ≤ wr') :
    cols.all (colEntryOK wl' wr') = true := by
  rw [List.all_eq_true] at h ⊢
  intro c hc
  exact colEntryOK_mono (h c hc) h1 h2

theorem semiColsAll_mono {cols : List Int} {wl wl' : Nat}
    (h : cols.all (fun c => decide (c < 0) && decide (c.natAbs - 1 < wl)) = true)
    (h1 : wl ≤ wl') :
    cols.all (fun c => decide (c < 0) && decide (c.natAbs - 1 < wl')) = true := by
  rw [List.all_eq_true] at h ⊢
  intro c hc
  have := h c hc
  simp only [Bool.and_eq_true, decide_eq_true_eq] at this ⊢
  omega

theorem natColsAll_mono {cols : List Nat} {w w' : Nat}
    (h : cols.all (fun c => decide (c < w)) = true) (h1 : w ≤ w') :
    cols.all (fun c => decide (c < w')) = true := by
  rw [List.all_eq_true] at h ⊢
  intro c hc
  have := h c hc
  simp only [decide_eq_true_eq] at this ⊢
  omega

theorem findColIdx_some {c : Int} : ∀ (l : List Int) (i j : Nat),
    findColIdx c l i = some j → i ≤ j ∧ j < i + l.length := by
  intro l
  induction l with
  | nil => intro i j h; simp [findColIdx] at h
  | cons x rest ih =>
    intro i j h
    rw [findColIdx] at h
    split at h
    · injection h with h
      subst h
      simp
    · have := ih (i + 1) j h
      simp only [List.length_cons]
      omega

theorem findNatIdx_some {v : Nat} : ∀ (l : List Nat) (i j : Nat),
    findNatIdx v l i = some j → i ≤ j ∧ j < i + l.length := by
  intro l
  induction l with
  | nil => intro i j h; simp [findNatIdx] at h
  | cons x rest ih =>
    intro i j h
    rw [findNatIdx] at h
    split at h
    · injection h with h
      subst h
      simp
    · have := ih (i + 1) j h
      simp only [List.length_cons]
      omega

theorem findAliasedIdx_some {e : AliasedExpr} : ∀ (l : List AliasedExpr) (i j : Nat),
    findAliasedIdx e l i = some j → i ≤ j ∧ j < i + l.length := by
  intro l
  induction l with
  | nil => intro i j h; simp [findAliasedIdx] at h
  | cons x rest ih =>
    intro i j h
    rw [findAliasedIdx] at h
    split at h
    · injection h with h
      subst h
      simp
    · have := ih (i + 1) j h
      simp only [List.length_cons]
      omega

theorem supplyProjection_inv {cols : List AliasedExpr} {e : AliasedExpr} {reuse : Bool}
    {i : Nat} {cols' : List AliasedExpr}
    (h : supplyProjection cols e reuse = .ok (i, cols')) :
    i < cols'.length ∧ cols.length ≤ cols'.length := by
  unfold supplyProjection at h
  split at h
  · split at h
    · rename_i j hfind
      injection h with h
      rw [Prod.mk.injEq] at h
      obtain ⟨h1, h2⟩ := h
      subst h2
      have hj := findAliasedIdx_some cols 0 j hfind
      exact ⟨by omega, Nat.le_refl _⟩
    · injection h with h
      rw [Prod.mk.injEq] at h
      obtain ⟨h1, h2⟩ := h
      subst h1
      subst h2
      simp
  · injection h with h
    rw [Prod.mk.injEq] at h
    obtain ⟨h1, h2⟩ := h
    subst h1
    subst h2
    simp

theorem findProjInAggregates_some {e : AliasedExpr} :
    ∀ (aggs : List AggregateParams) (c : Nat),
      findProjInAggregates e aggs = some c → ∃ a, a ∈ aggs ∧ a.col = c := by
  intro aggs
  induction aggs with
  | nil => intro c h; simp [findProjInAggregates] at h
  | cons a rest ih =>
    intro c h
    rw [findProjInAggregates] at h
    split at h
    · injection h with h
      exact ⟨a, List.mem_cons_self a rest, h⟩
    · split at h
      · injection h with h
        exact ⟨a, List.mem_cons_self a rest, h⟩
      · obtain ⟨a', ha', hc⟩ := ih c h
        exact ⟨a', List.mem_cons_of_mem a ha', hc⟩

theorem checkExistsAux_bound {d : TableSet} {e : AliasedExpr} {st : SemTable} :
    ∀ (l : List SelectExprItem) (i : Nat),
      checkExistsAux d e st l i = -1 ∨
        ∃ j, checkExistsAux d e st l i = Int.ofNat j ∧ i ≤ j ∧ j < i + l.length := by
  intro l
  induction l with
  | nil => intro i; left; rfl
  | cons x rest ih =>
    intro i
    rw [checkExistsAux]
    split
    · right
      exact ⟨i, rfl, Nat.le_refl i, by simp⟩
    · rcases ih (i + 1) with h | ⟨j, hj, h1, h2⟩
      · left; exact h
      · right
        refine ⟨j, hj, by omega, by simp only [List.length_cons]; omega⟩

theorem joinReuseOrAppend_inv {reuse appended : Bool} {c : Int} {cols : List Int}
    {wl wr : Nat} (hok : colEntryOK wl wr c = true)
    (hall : cols.all (colEntryOK wl wr) = true) :
    (joinReuseOrAppend reuse appended c cols).2.2.all (colEntryOK wl wr) = true ∧
    (joinReuseOrAppend reuse appended c cols).1 < (joinReuseOrAppend reuse appended c cols).2.2.length ∧
    cols.length ≤ (joinReuseOrAppend reuse appended c cols).2.2.length := by
  unfold joinReuseOrAppend
  split
  · split
    · rename_i j hfind
      have := findColIdx_some cols 0 j hfind
      simp only []
      refine ⟨hall, by omega, Nat.le_refl _⟩
    · simp only []
      refine ⟨?_, by simp, by simp⟩
      rw [List.all_append]
      simp [hall, hok]
  · simp only []
    refine ⟨?_, by simp, by simp⟩
    rw [List.all_append]
    simp [hall, hok]

theorem allLt_mono {α : Type} (f : α → Nat) {l : List α} {w w' : Nat}
    (h : l.all (fun a => decide (f a < w)) = true) (hw : w ≤ w') :
    l.all (fun a => decide (f a < w')) = true := by
  rw [List.all_eq_true] at h ⊢
  intro a ha
  have := h a ha
  simp only [decide_eq_true_eq] at this ⊢
  omega

theorem negEntry_ok {off wl wr : Nat} (h : off < wl) :
    colEntryOK wl wr (-(Int.ofNat off + 1)) = true := by
  unfold colEntryOK
  simp only [Int.ofNat_eq_coe]
  rw [if_pos (by omega)]
  simp only [decide_eq_true_eq]
  omega

theorem posEntry_ok {off wl wr : Nat} (h : off < wr) :
    colEntryOK wl wr (Int.ofNat off + 1) = true := by
  unfold colEntryOK
  simp only [Int.ofNat_eq_coe]
  rw [if_neg (by omega), if_pos (by omega)]
  simp only [decide_eq_true_eq]
  omega

theorem joinReuseOrAppend_bounds (reuse appended : Bool) (c : Int) (cols : List Int) :
    (joinReuseOrAppend reuse appended c cols).1 < (joinReuseOrAppend reuse appended c cols).2.2.length ∧
    cols.length ≤ (joinReuseOrAppend reuse appended c cols).2.2.length := by
  unfold joinReuseOrAppend
  split
  · split
    · rename_i j hfind
      have := findColIdx_some cols 0 j hfind
      simp only []
      omega
    · simp
  · simp

theorem joinReuseOrAppend_all {reuse appended : Bool} {c : Int} {cols : List Int}
    {wl wr : Nat} (hok : colEntryOK wl wr c = true)
    (hall : cols.all (colEntryOK wl wr) = true) :
    (joinReuseOrAppend reuse appended c cols).2.2.all (colEntryOK wl wr) = true := by
  unfold joinReuseOrAppend
  split
  · split
    · simpa using hall
    · simp only []
      rw [List.all_append]
      simp [hall, hok]
  · simp only []
    rw [List.all_append]
    simp [hall, hok]

theorem pushProjOnRoute_inv {expr : AliasedExpr} {r : Route} {st : SemTable}
    {inner reuse : Bool} {off : Nat} {add : Bool} {plan' : LogicalPlan}
    (h : pushProjOnRoute expr r st inner reuse = .ok (off, add, plan')) :
    ∃ r', plan' = .routeGen4 r' ∧ width (.routeGen4 r) ≤ width plan' ∧ off < width plan' := by
  unfold pushProjOnRoute at h
  cases hpc : routePreCheck expr st inner with
  | error e => rw [hpc] at h; simp at h
  | ok u =>
    rw [hpc] at h
    simp only [] at h
    by_cases hfound : (if reuse then checkIfAlreadyExists expr r.select st else -1) != -1
    · rw [if_pos hfound] at h
      simp only [Except.ok.injEq, Prod.mk.injEq] at h
      obtain ⟨hoff, _, hplan⟩ := h
      refine ⟨r, hplan.symm, by rw [← hplan], ?_⟩
      rw [← hplan]
      subst hoff
      cases hr : reuse with
      | false =>
        rw [hr] at hfound
        simp at hfound
      | true =>
        rw [hr] at hfound
        simp only [if_true] at hfound ⊢
        unfold checkIfAlreadyExists at hfound ⊢
        rcases checkExistsAux_bound (getFirstSelect r.select).selectExprs 0 with hm1 | ⟨j, hj, _, hjlt⟩
        · rw [hm1] at hfound
          simp at hfound
        · rw [hj]
          simp only [width, Int.ofNat_eq_coe, Int.toNat_natCast]
          omega
    · rw [if_neg hfound] at h
      cases hsel : r.select with
      | union l rr ob d => rw [hsel] at h; simp at h
      | sel s =>
        rw [hsel] at h
        simp only [] at h
        cases hrw : rewriteProjectionOfDerivedTable
            { expr with expr := removeKeyspaceFromColName expr.expr } st with
        | error e => rw [hrw] at h; simp at h
        | ok expr' =>
          rw [hrw] at h
          simp only [Except.ok.injEq, Prod.mk.injEq] at h
          obtain ⟨hoff, _, hplan⟩ := h
          refine ⟨_, hplan.symm, ?_, ?_⟩
          · rw [← hplan]
            simp only [width, hsel, getFirstSelect]
            simp
          · rw [← hplan]
            simp only [width, getFirstSelect]
            subst hoff
            simp

/-- The joint invariant of the projection pusher: pushing never changes the
operator skeleton, never narrows an output frame, and — on well-formed
plans — preserves well-formedness and returns an offset addressing the
result's output frame. -/
theorem pushProjection_inv_aux : ∀ (fuel : Nat),
    (∀ (expr : AliasedExpr) (plan : LogicalPlan) (st : SemTable) (inner reuse hasAgg : Bool)
        (off : Nat) (add : Bool) (plan' : LogicalPlan),
      pushProjection fuel expr plan st inner reuse hasAgg = .ok (off, add, plan') →
      planShape plan' = planShape plan ∧ width plan ≤ width plan' ∧
        (wellFormed plan = true → wellFormed plan' = true ∧ off < width plan')) ∧
    (∀ (bv : List String) (cols : List Expr) (left : LogicalPlan) (st : SemTable)
        (inner : Bool) (vars : List (String × Nat)) (left' : LogicalPlan)
        (vars' : List (String × Nat)),
      pushLHSCols fuel bv cols left st inner vars = .ok (left', vars') →
      planShape left' = planShape left ∧ width left ≤ width left' ∧
        (wellFormed left = true → wellFormed left' = true)) := by
  intro fuel
  induction fuel with
  | zero =>
    constructor
    · intro expr plan st inner reuse hasAgg off add plan' h
      rw [pushProjection.eq_def] at h
      simp at h
    · intro bv cols left st inner vars left' vars' h
      rw [pushLHSCols.eq_def] at h
      simp at h
  | succ n ih =>
    obtain ⟨ihPush, ihCols⟩ := ih
    constructor
    · intro expr plan st inner reuse hasAgg off add plan' h
      cases plan with
      | routeGen4 r =>
        rw [pushProjection_succ_route] at h
        obtain ⟨r', hplan, hw, hoff⟩ := pushProjOnRoute_inv h
        subst hplan
        exact ⟨by simp [planShape], hw, fun _ => ⟨by simp [wellFormed], hoff⟩⟩
      | hashJoin l r op cols =>
        rw [pushProjection.eq_def] at h
        simp only [] at h
        split at h
        · -- solved by the left side
          split at h
          · simp at h
          · rename_i offset added l' heq
            rcases hjra : joinReuseOrAppend reuse added (-(Int.ofNat offset + 1)) cols
              with ⟨idx, fin, cols'⟩
            rw [hjra] at h
            simp only [Except.ok.injEq, Prod.mk.injEq] at h
            obtain ⟨hoff, hadd, hplan⟩ := h
            subst hoff; subst hplan
            obtain ⟨hsh, hwl, hwf⟩ := ihPush _ _ _ _ _ _ _ _ _ heq
            have hbounds := joinReuseOrAppend_bounds reuse added (-(Int.ofNat offset + 1)) cols
            rw [hjra] at hbounds
            simp only [] at hbounds
            refine ⟨by simp [planShape, hsh], by simp only [width]; omega, ?_⟩
            intro hwfIn
            simp only [wellFormed, Bool.and_eq_true] at hwfIn
            obtain ⟨⟨hall, hwfl⟩, hwfr⟩ := hwfIn
            obtain ⟨hwfl', hlt⟩ := hwf hwfl
            have hok := @negEntry_ok _ _ (width r) hlt
            have hall' := @joinReuseOrAppend_all reuse added _ _ _ _ hok (colsAll_mono hall hwl (Nat.le_refl _))
            rw [hjra] at hall'
            simp only [] at hall'
            refine ⟨?_, by simp only [width]; omega⟩
            simp only [wellFormed, Bool.and_eq_true]
            exact ⟨⟨hall', hwfl'⟩, hwfr⟩
        · split at h
          · -- solved by the right side
            split at h
            · simp at h
            · rename_i offset added r' heq
              rcases hjra : joinReuseOrAppend reuse added (Int.ofNat offset + 1) cols
                with ⟨idx, fin, cols'⟩
              rw [hjra] at h
              simp only [Except.ok.injEq, Prod.mk.injEq] at h
              obtain ⟨hoff, hadd, hplan⟩ := h
              subst hoff; subst hplan
              obtain ⟨hsh, hwr, hwf⟩ := ihPush _ _ _ _ _ _ _ _ _ heq
              have hbounds := joinReuseOrAppend_bounds reuse added (Int.ofNat offset + 1) cols
              rw [hjra] at hbounds
              simp only [] at hbounds
              refine ⟨by simp [planShape, hsh], by simp only [width]; omega, ?_⟩
              intro hwfIn
              simp only [wellFormed, Bool.and_eq_true] at hwfIn
              obtain ⟨⟨hall, hwfl⟩, hwfr⟩ := hwfIn
              obtain ⟨hwfr', hlt⟩ := hwf hwfr
              have hok := @posEntry_ok _ (width l) _ hlt
              have hall' := @joinReuseOrAppend_all reuse added _ _ _ _ hok (colsAll_mono hall (Nat.le_refl _) hwr)
              rw [hjra] at hall'
              simp only [] at hall'
              refine ⟨?_, by simp only [width]; omega⟩
              simp only [wellFormed, Bool.and_eq_true]
              exact ⟨⟨hall', hwfl⟩, hwfr'⟩
          · split at h <;> simp at h
      | joinGen4 l r op cols vars =>
        rw [pushProjection.eq_def] at h
        simp only [] at h
        split at h
        · -- solved by the left side
          split at h
          · simp at h
          · rename_i offset added l' heq
            rcases hjra : joinReuseOrAppend reuse added (-(Int.ofNat offset + 1)) cols
              with ⟨idx, fin, cols'⟩
            rw [hjra] at h
            simp only [Except.ok.injEq, Prod.mk.injEq] at h
            obtain ⟨hoff, hadd, hplan⟩ := h
            subst hoff; subst hplan
            obtain ⟨hsh, hwl, hwf⟩ := ihPush _ _ _ _ _ _ _ _ _ heq
            have hbounds := joinReuseOrAppend_bounds reuse added (-(Int.ofNat offset + 1)) cols
            rw [hjra] at hbounds
            simp only [] at hbounds
            refine ⟨by simp [planShape, hsh], by simp only [width]; omega, ?_⟩
            intro hwfIn
            simp only [wellFormed, Bool.and_eq_true] at hwfIn
            obtain ⟨⟨hall, hwfl⟩, hwfr⟩ := hwfIn
            obtain ⟨hwfl', hlt⟩ := hwf hwfl
            have hok := @negEntry_ok _ _ (width r) hlt
            have hall' := @joinReuseOrAppend_all reuse added _ _ _ _ hok (colsAll_mono hall hwl (Nat.le_refl _))
            rw [hjra] at hall'
            simp only [] at hall'
            refine ⟨?_, by simp only [width]; omega⟩
            simp only [wellFormed, Bool.and_eq_true]
            exact ⟨⟨hall', hwfl'⟩, hwfr⟩
        · split at h
          · -- solved by the right side
            split at h
            · simp at h
            · rename_i offset added r' heq
              rcases hjra : joinReuseOrAppend reuse added (Int.ofNat offset + 1) cols
                with ⟨idx, fin, cols'⟩
              rw [hjra] at h
              simp only [Except.ok.injEq, Prod.mk.injEq] at h
              obtain ⟨hoff, hadd, hplan⟩ := h
              subst hoff; subst hplan
              obtain ⟨hsh, hwr, hwf⟩ := ihPush _ _ _ _ _ _ _ _ _ heq
              have hbounds := joinReuseOrAppend_bounds reuse added (Int.ofNat offset + 1) cols
              rw [hjra] at hbounds
              simp only [] at hbounds
              refine ⟨by simp [planShape, hsh], by simp only [width]; omega, ?_⟩
              intro hwfIn
              simp only [wellFormed, Bool.and_eq_true] at hwfIn
              obtain ⟨⟨hall, hwfl⟩, hwfr⟩ := hwfIn
              obtain ⟨hwfr', hlt⟩ := hwf hwfr
              have hok := @posEntry_ok _ (width l) _ hlt
              have hall' := @joinReuseOrAppend_all reuse added _ _ _ _ hok (colsAll_mono hall (Nat.le_refl _) hwr)
              rw [hjra] at hall'
              simp only [] at hall'
              refine ⟨?_, by simp only [width]; omega⟩
              simp only [wellFormed, Bool.and_eq_true]
              exact ⟨⟨hall', hwfl⟩, hwfr'⟩
          · -- the expression spans both sides
            split at h
            · simp at h
            · split at h
              · simp at h
              · rename_i hbreak
                split at h
                · simp at h
                · rename_i l' vars₁ hlhs
                  split at h
                  · simp at h
                  · rename_i offset added r' heq
                    rcases hjra : joinReuseOrAppend reuse added (Int.ofNat offset + 1) cols
                      with ⟨idx, fin, cols'⟩
                    rw [hjra] at h
                    simp only [Except.ok.injEq, Prod.mk.injEq] at h
                    obtain ⟨hoff, hadd, hplan⟩ := h
                    subst hoff; subst hplan
                    obtain ⟨hshl, hwl, hwfLCols⟩ := ihCols _ _ _ _ _ _ _ _ hlhs
                    obtain ⟨hshr, hwr, hwf⟩ := ihPush _ _ _ _ _ _ _ _ _ heq
                    have hbounds := joinReuseOrAppend_bounds reuse added (Int.ofNat offset + 1) cols
                    rw [hjra] at hbounds
                    simp only [] at hbounds
                    refine ⟨by simp [planShape, hshl, hshr], by simp only [width]; omega, ?_⟩
                    intro hwfIn
                    simp only [wellFormed, Bool.and_eq_true] at hwfIn
                    obtain ⟨⟨hall, hwfl⟩, hwfr⟩ := hwfIn
                    obtain ⟨hwfr', hlt⟩ := hwf hwfr
                    have hok := @posEntry_ok _ (width l') _ hlt
                    have hall' := @joinReuseOrAppend_all reuse added _ _ _ _ hok (colsAll_mono hall hwl hwr)
                    rw [hjra] at hall'
                    simp only [] at hall'
                    refine ⟨?_, by simp only [width]; omega⟩
                    simp only [wellFormed, Bool.and_eq_true]
                    exact ⟨⟨hall', hwfLCols hwfl⟩, hwfr'⟩
      | pulloutSubquery sq u =>
        rw [pushProjection.eq_def] at h
        simp only [] at h
        split at h
        · simp at h
        · rename_i offset added u' heq
          simp only [Except.ok.injEq, Prod.mk.injEq] at h
          obtain ⟨hoff, hadd, hplan⟩ := h
          subst hoff; subst hplan
          obtain ⟨hsh, hw, hwf⟩ := ihPush _ _ _ _ _ _ _ _ _ heq
          refine ⟨by simp [planShape, hsh], by simpa [width] using hw, ?_⟩
          intro hwfIn
          simp only [wellFormed, Bool.and_eq_true] at hwfIn
          obtain ⟨hwsq, hwu⟩ := hwfIn
          obtain ⟨hwfu', hlt⟩ := hwf hwu
          exact ⟨by simp [wellFormed, hwsq, hwfu'], by simpa [width] using hlt⟩
      | simpleProjection input cols =>
        rw [pushProjection.eq_def] at h
        simp only [] at h
        split at h
        · simp at h
        · rename_i offset added input' heq
          obtain ⟨hsh, hw, hwf⟩ := ihPush _ _ _ _ _ _ _ _ _ heq
          split at h
          · rename_i i hfind
            simp only [Except.ok.injEq, Prod.mk.injEq] at h
            obtain ⟨hoff, hadd, hplan⟩ := h
            subst hoff; subst hplan
            have hfind' : findNatIdx offset cols 0 = some i := by
              by_cases hr : reuse = true
              · rwa [if_pos hr] at hfind
              · rw [if_neg hr] at hfind
                simp at hfind
            have hlt := findNatIdx_some cols 0 i hfind'
            refine ⟨by simp [planShape, hsh], by simp [width], ?_⟩
            intro hwfIn
            simp only [wellFormed, Bool.and_eq_true] at hwfIn
            obtain ⟨hall, hwfi⟩ := hwfIn
            obtain ⟨hwfi', _⟩ := hwf hwfi
            refine ⟨?_, by simp only [width]; omega⟩
            simp only [wellFormed, Bool.and_eq_true]
            exact ⟨natColsAll_mono hall hw, hwfi'⟩
          · simp only [Except.ok.injEq, Prod.mk.injEq] at h
            obtain ⟨hoff, hadd, hplan⟩ := h
            subst hoff; subst hplan
            refine ⟨by simp [planShape, hsh], by simp [width], ?_⟩
            intro hwfIn
            simp only [wellFormed, Bool.and_eq_true] at hwfIn
            obtain ⟨hall, hwfi⟩ := hwfIn
            obtain ⟨hwfi', hlt⟩ := hwf hwfi
            refine ⟨?_, by simp [width]⟩
            simp only [wellFormed, Bool.and_eq_true]
            refine ⟨?_, hwfi'⟩
            rw [List.all_append]
            simp only [Bool.and_eq_true]
            refine ⟨natColsAll_mono hall hw, ?_⟩
            simp only [List.all_cons, List.all_nil, Bool.and_true, decide_eq_true_eq]
            exact hlt
      | orderedAggregate input eaggr =>
        rw [pushProjection.eq_def] at h
        simp only [] at h
        split at h
        · rename_i c hfind
          simp only [Except.ok.injEq, Prod.mk.injEq] at h
          obtain ⟨hoff, hadd, hplan⟩ := h
          subst hoff; subst hplan
          refine ⟨rfl, Nat.le_refl _, ?_⟩
          intro hwfIn
          refine ⟨hwfIn, ?_⟩
          simp only [wellFormed, Bool.and_eq_true] at hwfIn
          obtain ⟨⟨haggs, _⟩, _⟩ := hwfIn
          obtain ⟨a, ha, hac⟩ := findProjInAggregates_some eaggr.aggregates _ hfind
          rw [List.all_eq_true] at haggs
          have := haggs a ha
          simp only [decide_eq_true_eq] at this
          simp only [width]
          omega
        · simp at h
      | vindexFunc cols =>
        rw [pushProjection.eq_def] at h
        simp only [] at h
        split at h
        · simp at h
        · rename_i i cols' heq
          simp only [Except.ok.injEq, Prod.mk.injEq] at h
          obtain ⟨hoff, hadd, hplan⟩ := h
          subst hoff; subst hplan
          obtain ⟨hi, hlen⟩ := supplyProjection_inv heq
          exact ⟨by simp [planShape], by simpa [width] using hlen,
            fun _ => ⟨by simp [wellFormed], by simpa [width] using hi⟩⟩
      | limitPlan input =>
        rw [pushProjection.eq_def] at h
        simp only [] at h
        split at h
        · simp at h
        · rename_i offset added input' heq
          simp only [Except.ok.injEq, Prod.mk.injEq] at h
          obtain ⟨hoff, hadd, hplan⟩ := h
          subst hoff; subst hplan
          obtain ⟨hsh, hw, hwf⟩ := ihPush _ _ _ _ _ _ _ _ _ heq
          refine ⟨by simp [planShape, hsh], by simpa [width] using hw, ?_⟩
          intro hwfIn
          obtain ⟨hwf', hlt⟩ := hwf (by simpa [wellFormed] using hwfIn)
          exact ⟨by simpa [wellFormed] using hwf', by simpa [width] using hlt⟩
      | distinctPlan input =>
        rw [pushProjection.eq_def] at h
        simp only [] at h
        split at h
        · simp at h
        · rename_i offset added input' heq
          simp only [Except.ok.injEq, Prod.mk.injEq] at h
          obtain ⟨hoff, hadd, hplan⟩ := h
          subst hoff; subst hplan
          obtain ⟨hsh, hw, hwf⟩ := ihPush _ _ _ _ _ _ _ _ _ heq
          refine ⟨by simp [planShape, hsh], by simpa [width] using hw, ?_⟩
          intro hwfIn
          obtain ⟨hwf', hlt⟩ := hwf (by simpa [wellFormed] using hwfIn)
          exact ⟨by simpa [wellFormed] using hwf', by simpa [width] using hlt⟩
      | semiJoin l r cols =>
        rw [pushProjection.eq_def] at h
        simp only [] at h
        split at h
        · simp at h
        · rename_i offset added l' heq
          obtain ⟨hsh, hwl, hwf⟩ := ihPush _ _ _ _ _ _ _ _ _ heq
          split at h
          · rename_i idx hfind
            simp only [Except.ok.injEq, Prod.mk.injEq] at h
            obtain ⟨hoff, hadd, hplan⟩ := h
            subst hoff; subst hplan
            have hfind' : findColIdx (-(Int.ofNat offset + 1)) cols 0 = some idx := by
              by_cases hr : (reuse && !added) = true
              · rwa [if_pos hr] at hfind
              · rw [if_neg hr] at hfind
                simp at hfind
            have hlt := findColIdx_some cols 0 idx hfind'
            refine ⟨by simp [planShape, hsh], by simp [width], ?_⟩
            intro hwfIn
            simp only [wellFormed, Bool.and_eq_true] at hwfIn
            obtain ⟨⟨hall, hwfl⟩, hwfr⟩ := hwfIn
            obtain ⟨hwfl', _⟩ := hwf hwfl
            refine ⟨?_, by simp only [width]; omega⟩
            simp only [wellFormed, Bool.and_eq_true]
            exact ⟨⟨semiColsAll_mono hall hwl, hwfl'⟩, hwfr⟩
          · simp only [Except.ok.injEq, Prod.mk.injEq] at h
            obtain ⟨hoff, hadd, hplan⟩ := h
            subst hoff; subst hplan
            refine ⟨by simp [planShape, hsh], by simp [width], ?_⟩
            intro hwfIn
            simp only [wellFormed, Bool.and_eq_true] at hwfIn
            obtain ⟨⟨hall, hwfl⟩, hwfr⟩ := hwfIn
            obtain ⟨hwfl', hlt⟩ := hwf hwfl
            refine ⟨?_, by simp [width]⟩
            simp only [wellFormed, Bool.and_eq_true]
            refine ⟨⟨?_, hwfl'⟩, hwfr⟩
            rw [List.all_append]
            simp only [Bool.and_eq_true]
            refine ⟨semiColsAll_mono hall hwl, ?_⟩
            simp only [List.all_cons, List.all_nil, Bool.and_true, Bool.and_eq_true,
              decide_eq_true_eq]
            constructor
            · simp only [Int.ofNat_eq_coe]
              omega
            · simp only [Int.ofNat_eq_coe]
              omega
      | concatenateGen4 first rest =>
        rw [pushProjection.eq_def] at h
        simp only [] at h
        split at h
        · simp at h
        · split at h
          · simp at h
          · rename_i offset added first' heq
            split at h
            · simp at h
            · rename_i haddedFalse
              simp only [Except.ok.injEq, Prod.mk.injEq] at h
              obtain ⟨hoff, hadd, hplan⟩ := h
              subst hoff; subst hplan
              obtain ⟨hsh, hw, hwf⟩ := ihPush _ _ _ _ _ _ _ _ _ heq
              refine ⟨by simp [planShape, hsh], by simpa [width] using hw, ?_⟩
              intro hwfIn
              simp only [wellFormed, Bool.and_eq_true] at hwfIn
              obtain ⟨hwff, hwfrest⟩ := hwfIn
              obtain ⟨hwff', hlt⟩ := hwf hwff
              exact ⟨by simp [wellFormed, hwff', hwfrest], by simpa [width] using hlt⟩
      | memorySort i e =>
        rw [pushProjection.eq_def] at h
        simp at h
      | filterPlan i p =>
        rw [pushProjection.eq_def] at h
        simp at h
    · intro bv cols left st inner vars left' vars' h
      cases cols with
      | nil =>
        rw [pushLHSCols.eq_def] at h
        simp only [Except.ok.injEq, Prod.mk.injEq] at h
        obtain ⟨hl, hv⟩ := h
        subst hl
        exact ⟨rfl, Nat.le_refl _, fun hw => hw⟩
      | cons c cs =>
        cases bv with
        | nil =>
          rw [pushLHSCols.eq_def] at h
          simp at h
        | cons b bs =>
          rw [pushLHSCols.eq_def] at h
          simp only [] at h
          split at h
          · simp at h
          · rename_i colOffset added left₁ heq
            obtain ⟨hsh1, hw1, hwf1⟩ := ihPush _ _ _ _ _ _ _ _ _ heq
            obtain ⟨hsh2, hw2, hwf2⟩ := ihCols _ _ _ _ _ _ _ _ h
            exact ⟨hsh2.trans hsh1, Nat.le_trans hw1 hw2,
              fun hw => hwf2 ((hwf1 hw).1)⟩

/-- Pushing the aggregate select expressions never changes the plan's
operator skeleton: every step is a pushProjection. -/
theorem processAggrSelectExprs_shape (fuel : Nat) (ctx : PlanningContext) :
    ∀ (es : List QPSelectExpr) (hp : HorizonPlanning) (plan : LogicalPlan)
      (ea : Option EOrderedAggregate) (hp' : HorizonPlanning) (plan' : LogicalPlan)
      (ea' : Option EOrderedAggregate),
    processAggrSelectExprs fuel ctx es hp plan ea = .ok (hp', plan', ea') →
    planShape plan' = planShape plan := by
  intro es
  induction es with
  | nil =>
    intro hp plan ea hp' plan' ea' h
    simp only [processAggrSelectExprs, Except.ok.injEq, Prod.mk.injEq] at h
    rw [h.2.1]
  | cons e rest ih =>
    intro hp plan ea hp' plan' ea' h
    simp only [processAggrSelectExprs] at h
    split at h
    · simp at h
    · split at h
      · split at h
        · simp at h
        · rename_i plan₁ heq
          exact (ih _ _ _ _ _ _ h).trans
            ((pushProjection_inv_aux fuel).1 _ _ _ _ _ _ _ _ _ heq).1
      · split at h
        · split at h
          · simp at h
          · rename_i plan₁ heq
            exact (ih _ _ _ _ _ _ h).trans
              ((pushProjection_inv_aux fuel).1 _ _ _ _ _ _ _ _ _ heq).1
        · split at h
          · split at h
            · simp at h
            · split at h
              · simp at h
              · split at h
                · simp at h
                · split at h
                  · simp at h
                  · rename_i plan₁ heq
                    exact (ih _ _ _ _ _ _ h).trans
                      ((pushProjection_inv_aux fuel).1 _ _ _ _ _ _ _ _ _ heq).1
          · simp at h

/-- C5: projection push-down maintains the join column-addressing
invariant.  `wellFormed` states, for every join node, that each entry `c`
of its Cols vector is non-zero and that `|c| - 1` is a valid column
offset of the child on the side the sign indicates (negative = left,
positive = right).  Pushing onto a well-formed plan yields a well-formed
plan, an offset addressing the result's output frame, and an unchanged
operator skeleton. -/
theorem pushProjection_columnAddressing (fuel : Nat) (expr : AliasedExpr)
    (plan : LogicalPlan) (st : SemTable) (inner reuse hasAgg : Bool)
    (off : Nat) (add : Bool) (plan' : LogicalPlan)
    (h : pushProjection fuel expr plan st inner reuse hasAgg = .ok (off, add, plan'))
    (hwf : wellFormed plan = true) :
    wellFormed plan' = true ∧ off < width plan' ∧ planShape plan' = planShape plan := by
  obtain ⟨hsh, _, hwfc⟩ := (pushProjection_inv_aux fuel).1 _ _ _ _ _ _ _ _ _ h
  obtain ⟨hwf', hlt⟩ := hwfc hwf
  exact ⟨hwf', hlt, hsh⟩

/-- Concrete instance of the column-addressing invariant: pushing the
column `a` onto a cross-shard join appends the entry -1 (left child,
offset 0) and keeps the plan well-formed. -/
theorem pushProjection_columnAddressing_witness :
    pushProjection 3 ⟨sampleColA, ""⟩ sampleJoinAB0 sampleSt true true false =
      .ok (0, true, sampleJoinAB0A) ∧
    wellFormed sampleJoinAB0 = true ∧
    (wellFormed sampleJoinAB0A = true ∧ 0 < width sampleJoinAB0A ∧
      planShape sampleJoinAB0A = planShape sampleJoinAB0) :=
  ⟨by decide, by decide,
    pushProjection_columnAddressing 3 ⟨sampleColA, ""⟩ sampleJoinAB0 sampleSt true true false
      0 true sampleJoinAB0A (by decide) (by decide)⟩

/-- C9: when planAggregations takes the ordered-aggregate path (here
because no group-by expression carries a unique vindex; a join input
triggers the same path), sorting cannot be pushed down, and the final
group-by list is empty, the ordered aggregate built during the
select-expression loop — together with the aggregates recorded on it,
and any HAVING filter attached above it — is silently discarded: the
function hands the bare plan that the select expressions were pushed
into to the final check, every successful result is exactly that plan,
and its operator skeleton equals the input's, so no aggregation operator
appears on top. -/
theorem planAggregations_dropsOA (fuel : Nat) (ctx : PlanningContext)
    (hp : HorizonPlanning) (plan : LogicalPlan) (hp₁ : HorizonPlanning)
    (plan₁ : LogicalPlan) (ea : EOrderedAggregate)
    (hgb : hp.getQP.groupByExprs = [])
    (hperr : hp.getQP.projectionError = none)
    (hproc : processAggrSelectExprs fuel ctx hp.getQP.selectExprs
        { hp with vtgateGrouping := true } plan (some emptyEAggr) =
      .ok (hp₁, plan₁, some ea))
    (hgb₁ : hp₁.getQP.groupByExprs = [])
    (hsort : hp₁.getQP.canPushDownSorting = false) :
    planAggregations fuel ctx hp plan = postCheckAggregations hp₁ plan₁ ∧
    planShape plan₁ = planShape plan ∧
    (∀ hp' plan', postCheckAggregations hp₁ plan₁ = .ok (hp', plan') →
      hp' = hp₁ ∧ plan' = plan₁) := by
  refine ⟨?_, processAggrSelectExprs_shape fuel ctx _ _ _ _ _ _ _ hproc, ?_⟩
  · unfold planAggregations
    simp only [hgb, hperr, hasUniqueVindex, List.any_nil, Bool.not_false, Bool.true_or,
      List.length_nil, gt_iff_lt, Nat.lt_irrefl, decide_False, Bool.and_false, Bool.false_and,
      if_false, if_true, Bool.false_eq_true, planHaving]
    rw [hproc]
    simp only [hgb₁, processGroupByExprs]
    cases hhav : hp₁.sel.having with
    | none =>
      simp only [hsort, List.length_nil, Nat.lt_irrefl, if_false]
      simp
    | some hv =>
      simp only [pushHaving, newFilter, hsort, List.length_nil, Nat.lt_irrefl, if_false]
      simp
  · intro hp' plan' hpost
    unfold postCheckAggregations at hpost
    split at hpost
    · simp only [Except.ok.injEq, Prod.mk.injEq] at hpost
      exact ⟨hpost.1.symm, hpost.2.symm⟩
    · split at hpost
      · simp at hpost
      · simp only [Except.ok.injEq, Prod.mk.injEq] at hpost
        exact ⟨hpost.1.symm, hpost.2.symm⟩

/-- Concrete instance of the discarded ordered aggregate: planning
`SELECT count(a)` over the multi-shard `a, b` route with sorting
push-down disabled returns the route itself — count(a) is pushed into
its SELECT, and the ordered aggregate recording the COUNT is dropped. -/
theorem planAggregations_dropsOA_witness :
    processAggrSelectExprs 5 sampleCtx sampleHpCntA.getQP.selectExprs
        { sampleHpCntA with vtgateGrouping := true } (.routeGen4 sampleRouteAB)
        (some emptyEAggr) =
      .ok ({ sampleHpCntA with vtgateGrouping := true }, .routeGen4 sampleRouteABCnt,
        some sampleEaCntA) ∧
    planAggregations 5 sampleCtx sampleHpCntA (.routeGen4 sampleRouteAB) =
      .ok ({ sampleHpCntA with vtgateGrouping := true }, .routeGen4 sampleRouteABCnt) ∧
    (planAggregations 5 sampleCtx sampleHpCntA (.routeGen4 sampleRouteAB) =
        postCheckAggregations { sampleHpCntA with vtgateGrouping := true }
          (.routeGen4 sampleRouteABCnt) ∧
      planShape (LogicalPlan.routeGen4 sampleRouteABCnt) =
        planShape (LogicalPlan.routeGen4 sampleRouteAB) ∧
      (∀ hp' plan',
        postCheckAggregations { sampleHpCntA with vtgateGrouping := true }
            (.routeGen4 sampleRouteABCnt) = .ok (hp', plan') →
        hp' = { sampleHpCntA with vtgateGrouping := true } ∧
          plan' = .routeGen4 sampleRouteABCnt)) :=
  ⟨rfl, rfl, planAggregations_dropsOA 5 sampleCtx sampleHpCntA (.routeGen4 sampleRouteAB)
    { sampleHpCntA with vtgateGrouping := true } (.routeGen4 sampleRouteABCnt) sampleEaCntA
    rfl rfl rfl rfl rfl⟩

end VitessHorizon
